import Mathlib

/-!
A shallow embedding of the dependency-injection container implemented in
`lab7/main.py` (class `Injector`), together with proofs of its lifecycle,
scope and error-handling properties.

Modelling conventions:
* Contract identifiers (Python interface classes used as dictionary keys) are
  `Nat`.
* Python object identity is modelled by an allocation counter `nextId` in the
  container state: every construction (`implementation(**kwargs)` or a
  fresh-allocating factory) returns the current counter value as the new
  object's identity and bumps the counter.  Two resolutions return "the
  identical object" iff they return the same identity.
* A registered factory is an opaque nullary callable.  Its observable
  behaviour is either to allocate a fresh object on each call
  (`Factory.fresh`, like the demo's `lambda: FactoryClass()`) or to return a
  fixed pre-existing object (`Factory.alwaysSame`).
* Python dictionaries are association lists; assignment is cons and lookup
  takes the most recent entry, which gives the same overwrite semantics.
* The recursion `get_instance` → `_create_instance` → `get_instance` is not
  structurally terminating in the source (a cyclic registration recurses
  forever, see spec §7 `CyclicConfiguration`); the embedding threads a fuel
  counter, and exhausting it (`DIError.outOfFuel`) models the Python
  `RecursionError` resource-exhaustion defect, which the spec explicitly
  distinguishes from the typed error kinds.
-/
/-- The `LifeStyle` enum from `lab7/main.py`. -/
inductive LifeStyle where
  | PerRequest
  | Scoped
  | Singleton
deriving DecidableEq, Repr

/-- The kind of a Python constructor parameter, as seen by `inspect`:
an ordinary parameter, or one of the variadic kinds that
`_create_instance` skips (`VAR_POSITIONAL` / `VAR_KEYWORD`). -/
inductive PKind where
  | normal
  | varPositional
  | varKeyword
deriving DecidableEq, Repr

/-- One parameter of an implementation's `__init__` signature: its name, its
kind and its declared type annotation (`none` models both a missing
annotation and an annotation that is not one of the `Nat`-identified types;
`some t` is the identity of the annotated type, which may or may not be a
registered contract). -/
structure Param where
  name : String
  kind : PKind
  ann : Option Nat
deriving DecidableEq, Repr

/-- An implementation class: its name (used in the `UnresolvableDependency`
error message) and the ordered parameter list of its `__init__` signature,
including the `self` receiver, exactly as `inspect.signature` reports it. -/
structure Impl where
  name : String
  params : List Param
deriving DecidableEq, Repr

/-- A registered factory, modelled by its observable behaviour: `fresh`
allocates a new object on every call (the demo's `lambda: FactoryClass()`);
`alwaysSame o` returns the same pre-existing object `o` on every call
(e.g. a lambda closing over one object). -/
inductive Factory where
  | fresh
  | alwaysSame (o : Nat)
deriving DecidableEq, Repr

/-- A binding descriptor: the tuple
`(implementation, lifestyle, params, factory)` stored by `register`. -/
structure Binding where
  implementation : Option Impl
  lifestyle : LifeStyle
  params : List (String × Nat)
  factory : Option Factory
deriving DecidableEq, Repr

/-- A value passed to a constructor: an explicit-parameter literal or a
resolved dependency instance. -/
inductive Arg where
  | lit (v : Nat)
  | inst (o : Nat)
deriving DecidableEq, Repr

/-- What a heap object records about its construction. -/
inductive ObjInfo where
  | ctor (implName : String) (kwargs : List (String × Arg))
  | fromFactory
deriving DecidableEq, Repr

/-- The mutable state of an `Injector`: the four fields of
`Injector.__init__`, plus `nextId`/`heap`, which model the Python heap's
object identities (see module docstring). -/
structure Injector where
  registrations : List (Nat × Binding)
  singletons : List (Nat × Nat)
  scoped_instances : List (Nat × Nat)
  scope_active : Bool
  nextId : Nat
  heap : List (Nat × ObjInfo)
deriving DecidableEq, Repr

/-- Dictionary lookup on an association list: the most recent entry wins,
matching Python `dict` overwrite semantics with cons as assignment. -/
def look {κ α : Type} [DecidableEq κ] : List (κ × α) → κ → Option α
  | [], _ => none
  | (k, v) :: t, k' => if k' = k then some v else look t k'

/-- Membership test mirroring Python's `in` on a dictionary. -/
def hasKey {κ α : Type} [DecidableEq κ] (l : List (κ × α)) (k : κ) : Bool :=
  (look l k).isSome

/-- Errors raised by the container, one constructor per error kind of spec
§7 (`ValueError`/`RuntimeError` in the source), plus `outOfFuel` for the
resource-exhaustion defect of a cyclic configuration and `notCallable` for
the `TypeError` of resolving a binding that has neither an implementation
nor a factory. -/
inductive DIError where
  | unregisteredContract (interface : Nat)
  | scopeInactive
  | unresolvableDependency (paramName : String) (implName : String)
  | notCallable
  | outOfFuel
deriving DecidableEq, Repr

/-- A computation result: either an error together with the container state
at raise time (Python state mutations persist when an exception propagates),
or a value together with the updated state. -/
abbrev Res (α : Type) := Except (DIError × Injector) (α × Injector)

/-- Python `implementation(**kwargs)`: allocate a new object. -/
def construct (st : Injector) (impl : Impl) (kwargs : List (String × Arg)) :
    Nat × Injector :=
  (st.nextId,
    { st with
      nextId := st.nextId + 1
      heap := (st.nextId, .ctor impl.name kwargs) :: st.heap })

/-- Python `factory()`: run the registered factory. -/
def runFactory (st : Injector) : Factory → Nat × Injector
  | .fresh =>
      (st.nextId,
        { st with
          nextId := st.nextId + 1
          heap := (st.nextId, .fromFactory) :: st.heap })
  | .alwaysSame o => (o, st)

/-- Does `_create_instance` skip this parameter?  The source skips the
receiver by name (`name == 'self'`) and the variadic kinds. -/
def skipParam (p : Param) : Bool :=
  p.name = "self" || p.kind = PKind.varPositional || p.kind = PKind.varKeyword

mutual

/-- Python `Injector.get_instance`, with a fuel counter standing in for the Python
call stack. -/
def get_instance : Nat → Injector → Nat → Res Nat
  | 0, st, _ => .error (.outOfFuel, st)
  | fuel + 1, st, interface =>
    match look st.registrations interface with
    | none => .error (.unregisteredContract interface, st)
    | some b =>
      match b.lifestyle with
      | .Singleton =>
        match look st.singletons interface with
        | some o => .ok (o, st)
        | none =>
          match create_instance fuel st b with
          | .ok (o, st') =>
              .ok (o, { st' with singletons := (interface, o) :: st'.singletons })
          | .error es => .error es
      | .Scoped =>
        if st.scope_active = false then .error (.scopeInactive, st)
        else
          match look st.scoped_instances interface with
          | some o => .ok (o, st)
          | none =>
            match create_instance fuel st b with
            | .ok (o, st') =>
                .ok (o, { st' with
                          scoped_instances := (interface, o) :: st'.scoped_instances })
            | .error es => .error es
      | .PerRequest => create_instance fuel st b

/-- Python `Injector._create_instance`. -/
def create_instance : Nat → Injector → Binding → Res Nat
  | 0, st, _ => .error (.outOfFuel, st)
  | fuel + 1, st, b =>
    match b.factory with
    | some f => .ok (runFactory st f)
    | none =>
      match b.implementation with
      | none => .error (.notCallable, st)
      | some impl =>
        match build_kwargs fuel st impl b.params impl.params [] with
        | .ok (kwargs, st') => .ok (construct st' impl kwargs)
        | .error es => .error es

/-- The `for name, param in sig.parameters.items()` loop of
`_create_instance`, assembling the `kwargs` dictionary in declaration
order. -/
def build_kwargs : Nat → Injector → Impl → List (String × Nat) → List Param →
    List (String × Arg) → Res (List (String × Arg))
  | 0, st, _, _, _, _ => .error (.outOfFuel, st)
  | fuel + 1, st, impl, explicitPs, ps, acc =>
    match ps with
    | [] => .ok (acc, st)
    | p :: rest =>
      if skipParam p then build_kwargs fuel st impl explicitPs rest acc
      else
        match look explicitPs p.name with
        | some v =>
            build_kwargs fuel st impl explicitPs rest (acc ++ [(p.name, .lit v)])
        | none =>
          match p.ann with
          | some a =>
            if hasKey st.registrations a then
              match get_instance fuel st a with
              | .ok (o, st') =>
                  build_kwargs fuel st' impl explicitPs rest (acc ++ [(p.name, .inst o)])
              | .error es => .error es
            else .error (.unresolvableDependency p.name impl.name, st)
          | none => .error (.unresolvableDependency p.name impl.name, st)

end

/-- Python `Injector.register`: overwrites any previous binding for `interface`
(`params or {}` is reflected in the caller supplying a concrete list). -/
def register (st : Injector) (interface : Nat) (implementation : Option Impl)
    (lifestyle : LifeStyle) (params : List (String × Nat))
    (factory : Option Factory) : Injector :=
  { st with
    registrations :=
      (interface, ⟨implementation, lifestyle, params, factory⟩) :: st.registrations }

/-- Scope entry: the first half of `create_scope` (`_scope_active = True;
_scoped_instances = {}`). -/
def enterScope (st : Injector) : Injector :=
  { st with scope_active := true, scoped_instances := [] }

/-- Scope exit: the `finally` block of `create_scope`
(`_scope_active = False; _scoped_instances = {}`), run on every exit path. -/
def exitScope (st : Injector) : Injector :=
  { st with scope_active := false, scoped_instances := [] }

/-- The lifestyle under which `interface` is currently registered. -/
def lifestyleOf (st : Injector) (interface : Nat) : Option LifeStyle :=
  (look st.registrations interface).map Binding.lifestyle

/-- The factory under which `interface` is currently registered
(`some none` = registered without a factory). -/
def factoryOf (st : Injector) (interface : Nat) : Option (Option Factory) :=
  (look st.registrations interface).map Binding.factory

/-- One container-API call, for expressing sequences of operations a caller
may perform over the container's lifetime. -/
inductive Op where
  | register (interface : Nat) (implementation : Option Impl)
      (lifestyle : LifeStyle) (params : List (String × Nat))
      (factory : Option Factory)
  | resolve (interface : Nat)
  | enterScope
  | exitScope
deriving Repr

/-- Run one operation, keeping the container state a failed `resolve` leaves
behind (the Python `Injector` object persists when the caller catches the
exception). -/
def runOp (fuel : Nat) (st : Injector) : Op → Injector
  | .register i impl ls ps f => register st i impl ls ps f
  | .resolve i =>
    match get_instance fuel st i with
    | .ok (_, st') => st'
    | .error (_, st') => st'
  | .enterScope => enterScope st
  | .exitScope => exitScope st

/-- Run a sequence of operations. -/
def runOps (fuel : Nat) (st : Injector) : List Op → Injector
  | [] => st
  | op :: ops => runOps fuel (runOp fuel st op) ops

/-- Error-propagating runner for the body of a `with create_scope()` block:
a failing `resolve` aborts the remaining statements, as an uncaught Python
exception would. -/
def runOpsE (fuel : Nat) (st : Injector) : List Op → Except (DIError × Injector) Injector
  | [] => .ok st
  | op :: ops =>
    match op with
    | .resolve i =>
      match get_instance fuel st i with
      | .ok (_, st') => runOpsE fuel st' ops
      | .error es => .error es
    | _ => runOpsE fuel (runOp fuel st op) ops

/-- Python `with injector.create_scope(): <work>`: enter the scope, run the work,
and run the `finally` teardown on both the normal and the failing exit
path. -/
def withScope (fuel : Nat) (st : Injector) (work : List Op) :
    Except (DIError × Injector) Injector :=
  match runOpsE fuel (enterScope st) work with
  | .ok st' => .ok (exitScope st')
  | .error (e, st') => .error (e, exitScope st')

-- Demo configuration from `configure(injector)` in `lab7/main.py`, used as
-- a concrete test bed: 1 = Interface1, 2 = Interface2, 3 = Interface3,
-- 4 = InterfaceWithParams, 5 = InterfaceWithFactory; type ids 100/101 stand
-- for `str`/`int`.
def selfParam : Param := ⟨"self", .normal, none⟩

def Class1_Debug : Impl := ⟨"Class1_Debug", [selfParam]⟩

def Class2_Debug : Impl := ⟨"Class2_Debug", [selfParam]⟩

def Class3_Debug : Impl := ⟨"Class3_Debug", [selfParam, ⟨"dep", .normal, some 1⟩]⟩

def ParametrizedClass : Impl :=
  ⟨"ParametrizedClass",
    [selfParam, ⟨"name", .normal, some 100⟩, ⟨"level", .normal, some 101⟩]⟩

def emptyInjector : Injector := ⟨[], [], [], false, 0, []⟩

def demoInjector : Injector :=
  register
    (register
      (register
        (register
          (register emptyInjector 1 (some Class1_Debug) .Singleton [] none)
          2 (some Class2_Debug) .PerRequest [] none)
        3 (some Class3_Debug) .Scoped [] none)
      4 (some ParametrizedClass) .Singleton [("name", 7), ("level", 5)] none)
    5 none .PerRequest [] (some .fresh)

/-! ## State evolution across a resolution

`resState` projects the container state out of a result (Python state
mutations persist whether or not an exception propagates).  `evolves st st'`
captures what a resolution may do to the state: registrations and the scope
flag are untouched, existing entries of both instance stores are never
removed or rebound, and the allocation counter only grows. -/
def resState {α : Type} : Res α → Injector
  | .ok (_, s) => s
  | .error (_, s) => s

def evolves (st st' : Injector) : Prop :=
  st'.registrations = st.registrations ∧
  st'.scope_active = st.scope_active ∧
  (∀ c o, look st.singletons c = some o → look st'.singletons c = some o) ∧
  (∀ c o, look st.scoped_instances c = some o →
      look st'.scoped_instances c = some o) ∧
  st.nextId ≤ st'.nextId

/-- The conjunction of the evolution property for the three mutually
recursive functions, as one statement amenable to induction on fuel. -/
def EvolvesAt (fuel : Nat) : Prop :=
  (∀ st i, evolves st (resState (get_instance fuel st i))) ∧
  (∀ st b, evolves st (resState (create_instance fuel st b))) ∧
  (∀ st impl eps ps acc,
      evolves st (resState (build_kwargs fuel st impl eps ps acc)))

/-! ## Freshness of constructed instances -/
/-- Does the effective construction strategy of this factory slot allocate a
new object on every call?  Constructor-based bindings and fresh-allocating
factories do; a factory returning a fixed object does not. -/
def allocates : Option Factory → Bool
  | some (.alwaysSame _) => false
  | _ => true

/-- Whether the store relevant to the binding's lifecycle currently lacks an
entry for `i` (`PerRequest` consults no store). -/
def missAt (st : Injector) (i : Nat) (b : Binding) : Prop :=
  match b.lifestyle with
  | .Singleton => look st.singletons i = none
  | .Scoped => look st.scoped_instances i = none
  | .PerRequest => True

def c10Outer : Injector := enterScope demoInjector

def c10After : Injector :=
  exitScope (resState (get_instance 10 (enterScope c10Outer) 1))

def c1AfterFirst : Injector := resState (get_instance 10 demoInjector 1)

def c1Ops : List Op := [.resolve 2, .enterScope, .resolve 3, .exitScope, .resolve 5]

def c1Later : Injector := runOps 10 c1AfterFirst c1Ops

/-! ## C5: the UnregisteredContract error -/
/-- Bundle for induction on fuel: none of the three functions can produce an
`unregisteredContract` error when the requested contract is registered —
the dependency loop only ever recurses on annotations it has checked to be
registered. -/
def NoUnregAt (fuel : Nat) : Prop :=
  (∀ st i, hasKey st.registrations i = true →
      ∀ j st', get_instance fuel st i ≠ .error (.unregisteredContract j, st')) ∧
  (∀ st b j st',
      create_instance fuel st b ≠ .error (.unregisteredContract j, st')) ∧
  (∀ st impl eps ps acc j st',
      build_kwargs fuel st impl eps ps acc ≠
        .error (.unregisteredContract j, st'))

/-! ## C3: PerRequest resolutions -/
def c3CexInjector : Injector :=
  register emptyInjector 1 none .PerRequest [] (some (.alwaysSame 42))

def c3Binding : Binding := ⟨some Class2_Debug, .PerRequest, [], none⟩

/-! ## C2: Scoped resolutions -/
def c2CexInjector : Injector :=
  register emptyInjector 1 none .Scoped [] (some (.alwaysSame 42))

def c2CexScope1 : Injector := resState (get_instance 10 (enterScope c2CexInjector) 1)

def c2CexBinding : Binding := ⟨none, .Scoped, [], some (.alwaysSame 42)⟩

def c2Binding : Binding := ⟨some Class3_Debug, .Scoped, [], none⟩

def c2Scope1 : Injector := resState (get_instance 10 (enterScope demoInjector) 3)

def c6Eps : List (String × Nat) := [("level", 5)]

def c6NameParam : Param := ⟨"name", .normal, some 100⟩

def c6Binding : Binding := ⟨some ParametrizedClass, .Singleton, [("level", 5)], none⟩

/-! ## C9: a failed resolution leaves no new entry for the failed contract

The development below shows that whenever `get_instance` fails with one of
the spec's typed error kinds, the stores hold exactly what they held for
that contract before the call.  The propagated error is traced back to a
"poisoned" set of contracts — contracts whose resolution provably always
fails (a Scoped binding outside a scope, a missing callable, an
unresolvable parameter, or a parameter annotated with another poisoned
contract) — and a resolution of a poisoned contract can never complete, so
nothing is ever stored under a poisoned key. -/
/-- What a result looks like from the outside: did it succeed? -/
def isOkB {α : Type} : Res α → Bool
  | .ok _ => true
  | .error _ => false

/-- A constructor parameter is poisoned if `_create_instance` reaches it and
then either raises `UnresolvableDependency` (no explicit override, and the
annotation is missing or unregistered) or recurses into a contract of the
poisoned set `C`. -/
def poisonP (R : List (Nat × Binding)) (C : List Nat)
    (eps : List (String × Nat)) (p : Param) : Prop :=
  skipParam p = false ∧ look eps p.name = none ∧
    match p.ann with
    | none => True
    | some a => hasKey R a = false ∨ a ∈ C

/-- A binding is poisoned if building from it always fails: no factory, and
either no implementation (calling `None` raises) or a poisoned parameter
somewhere in the implementation's signature. -/
def bindingPoison (R : List (Nat × Binding)) (C : List Nat) (b : Binding) :
    Prop :=
  b.factory = none ∧
    (b.implementation = none ∨
      ∃ impl, b.implementation = some impl ∧
        ∃ p, p ∈ impl.params ∧ poisonP R C b.params p)

/-- A contract is a poisoned member of `C` (relative to registrations `R`
and scope flag `φ`) if it is registered and its resolution must fail:
either it is Scoped while no scope is active, or its binding is poisoned. -/
def memberPoison (R : List (Nat × Binding)) (φ : Bool) (C : List Nat)
    (y : Nat) : Prop :=
  ∃ b, look R y = some b ∧
    ((b.lifestyle = .Scoped ∧ φ = false) ∨ bindingPoison R C b)

/-- The store consulted for `y` under binding `b` cannot serve a cache hit
in state `st`. -/
def freeAt (st : Injector) (y : Nat) (b : Binding) : Prop :=
  match b.lifestyle with
  | .Singleton => look st.singletons y = none
  | .Scoped => st.scope_active = false ∨ look st.scoped_instances y = none
  | .PerRequest => True

/-- Invariant threaded through a resolution: the registrations and scope
flag are the fixed `R` and `φ`, and no poisoned contract can be served from
a store. -/
def GoodFor (R : List (Nat × Binding)) (φ : Bool) (C : List Nat)
    (st : Injector) : Prop :=
  st.registrations = R ∧ st.scope_active = φ ∧
    ∀ y, y ∈ C → ∀ b, look R y = some b → freeAt st y b

/-- Bundle for induction on fuel: an absent store entry stays absent unless
a resolution of that very contract, under the matching lifecycle, succeeds;
in particular, entries under a non-Singleton lifestyle never appear in the
singleton store, scoped entries never appear for non-Scoped lifestyles, and
no scoped entry at all appears while the scope flag is off. -/
def StoreDisciplineAt (fuel : Nat) : Prop :=
  (∀ st d y, lifestyleOf st y ≠ some .Singleton →
      look st.singletons y = none →
      look (resState (get_instance fuel st d)).singletons y = none) ∧
  (∀ st b y, lifestyleOf st y ≠ some .Singleton →
      look st.singletons y = none →
      look (resState (create_instance fuel st b)).singletons y = none) ∧
  (∀ st impl eps ps acc y, lifestyleOf st y ≠ some .Singleton →
      look st.singletons y = none →
      look (resState (build_kwargs fuel st impl eps ps acc)).singletons y = none) ∧
  (∀ st d y, (lifestyleOf st y ≠ some .Scoped ∨ st.scope_active = false) →
      look st.scoped_instances y = none →
      look (resState (get_instance fuel st d)).scoped_instances y = none) ∧
  (∀ st b y, (lifestyleOf st y ≠ some .Scoped ∨ st.scope_active = false) →
      look st.scoped_instances y = none →
      look (resState (create_instance fuel st b)).scoped_instances y = none) ∧
  (∀ st impl eps ps acc y,
      (lifestyleOf st y ≠ some .Scoped ∨ st.scope_active = false) →
      look st.scoped_instances y = none →
      look (resState (build_kwargs fuel st impl eps ps acc)).scoped_instances y
        = none)

/-- Bundle for induction on fuel: from a state whose poisoned contracts are
not cached, every function preserves that state shape, resolutions of
poisoned contracts always fail, and builds over poisoned bindings or
poisoned parameter lists always fail. -/
def PoisonPackAt (R : List (Nat × Binding)) (φ : Bool) (C : List Nat)
    (fuel : Nat) : Prop :=
  (∀ st d, GoodFor R φ C st → GoodFor R φ C (resState (get_instance fuel st d))) ∧
  (∀ st d, d ∈ C → GoodFor R φ C st → isOkB (get_instance fuel st d) = false) ∧
  (∀ st b, GoodFor R φ C st →
      GoodFor R φ C (resState (create_instance fuel st b))) ∧
  (∀ st b, GoodFor R φ C st → bindingPoison R C b →
      isOkB (create_instance fuel st b) = false) ∧
  (∀ st impl eps ps acc, GoodFor R φ C st →
      GoodFor R φ C (resState (build_kwargs fuel st impl eps ps acc))) ∧
  (∀ st impl eps ps acc, GoodFor R φ C st →
      (∃ p, p ∈ ps ∧ poisonP R C eps p) →
      isOkB (build_kwargs fuel st impl eps ps acc) = false)

/-- Bundle for induction on fuel: every failure with a typed error (not the
fuel-exhaustion stand-in for unbounded recursion) is explained either by the
requested contract being unregistered or by a poisoned set of contracts
that were all uncached at the start of the call. -/
def ExtPackAt (fuel : Nat) : Prop :=
  (∀ st i e st', get_instance fuel st i = .error (e, st') → e ≠ .outOfFuel →
    look st.registrations i = none ∨
    ∃ C, i ∈ C ∧
      (∀ y, y ∈ C → memberPoison st.registrations st.scope_active C y) ∧
      (∀ y, y ∈ C → ∀ b, look st.registrations y = some b → freeAt st y b)) ∧
  (∀ st b e st', create_instance fuel st b = .error (e, st') →
      e ≠ .outOfFuel →
    ∃ C, (∀ y, y ∈ C → memberPoison st.registrations st.scope_active C y) ∧
      (∀ y, y ∈ C → ∀ b', look st.registrations y = some b' → freeAt st y b') ∧
      b.factory = none ∧
      (b.implementation = none ∨ ∃ impl, b.implementation = some impl ∧
        ∃ p, p ∈ impl.params ∧ poisonP st.registrations C b.params p)) ∧
  (∀ st impl eps ps acc e st',
      build_kwargs fuel st impl eps ps acc = .error (e, st') →
      e ≠ .outOfFuel →
    ∃ C, (∀ y, y ∈ C → memberPoison st.registrations st.scope_active C y) ∧
      (∀ y, y ∈ C → ∀ b', look st.registrations y = some b' → freeAt st y b') ∧
      ∃ p, p ∈ ps ∧ poisonP st.registrations C eps p)

def c9Impl : Impl :=
  ⟨"NeedsDepAndBad", [selfParam, ⟨"dep", .normal, some 1⟩,
    ⟨"bad", .normal, some 100⟩]⟩

def c9Injector : Injector := register demoInjector 7 (some c9Impl) .Singleton [] none

def c9After : Injector := resState (get_instance 10 c9Injector 7)

example : get_instance 10 demoInjector 1 =
    .ok (0, { demoInjector with
              singletons := [(1, 0)]
              nextId := 1
              heap := [(0, .ctor "Class1_Debug" [])] }) := rfl

example :
    (get_instance 10 (enterScope demoInjector) 3).toOption.map Prod.fst = some 1 := rfl

example : get_instance 10 demoInjector 3 = .error (.scopeInactive, demoInjector) := rfl

example : get_instance 10 demoInjector 9 =
    .error (.unregisteredContract 9, demoInjector) := rfl

/-! ## Basic lemmas about dictionary lookup -/
theorem look_cons {κ α : Type} [DecidableEq κ] (k k' : κ) (v : α)
    (l : List (κ × α)) :
    look ((k, v) :: l) k' = if k' = k then some v else look l k' := rfl

theorem look_cons_self {κ α : Type} [DecidableEq κ] (k : κ) (v : α)
    (l : List (κ × α)) : look ((k, v) :: l) k = some v := by
  simp [look_cons]

theorem look_cons_ne {κ α : Type} [DecidableEq κ] {k k' : κ} (v : α)
    (l : List (κ × α)) (h : k' ≠ k) : look ((k, v) :: l) k' = look l k' := by
  simp [look_cons, h]

theorem evolves_refl (st : Injector) : evolves st st :=
  ⟨rfl, rfl, fun _ _ h => h, fun _ _ h => h, Nat.le_refl _⟩

theorem evolves_trans {s1 s2 s3 : Injector} (h1 : evolves s1 s2)
    (h2 : evolves s2 s3) : evolves s1 s3 := by
  obtain ⟨a1, b1, c1, d1, e1⟩ := h1
  obtain ⟨a2, b2, c2, d2, e2⟩ := h2
  exact ⟨a2.trans a1, b2.trans b1, fun c o h => c2 c o (c1 c o h),
    fun c o h => d2 c o (d1 c o h), e1.trans e2⟩

theorem evolves_construct (st : Injector) (impl : Impl)
    (kwargs : List (String × Arg)) : evolves st (construct st impl kwargs).2 :=
  ⟨rfl, rfl, fun _ _ h => h, fun _ _ h => h, Nat.le_succ _⟩

theorem evolves_runFactory (st : Injector) (f : Factory) :
    evolves st (runFactory st f).2 := by
  cases f with
  | fresh => exact ⟨rfl, rfl, fun _ _ h => h, fun _ _ h => h, Nat.le_succ _⟩
  | alwaysSame o => exact evolves_refl st

theorem evolvesAt (fuel : Nat) : EvolvesAt fuel := by
  induction fuel with
  | zero =>
      refine ⟨fun st i => ?_, fun st b => ?_, fun st impl eps ps acc => ?_⟩ <;>
        exact evolves_refl st
  | succ fuel ih =>
      obtain ⟨ihg, ihc, ihb⟩ := ih
      have hc : ∀ st b, evolves st (resState (create_instance (fuel + 1) st b)) := by
        intro st b
        rw [create_instance]
        cases hf : b.factory with
        | some f => simpa [resState] using evolves_runFactory st f
        | none =>
          cases hi : b.implementation with
          | none => exact evolves_refl st
          | some impl =>
            cases hb : build_kwargs fuel st impl b.params impl.params [] with
            | ok v =>
              obtain ⟨kwargs, st'⟩ := v
              have h1 : evolves st st' := by
                have := ihb st impl b.params impl.params []
                rwa [hb] at this
              simp only [hb, resState]
              exact evolves_trans h1 (evolves_construct st' impl kwargs)
            | error es =>
              have := ihb st impl b.params impl.params []
              rw [hb] at this
              simpa [hb, resState] using this
      have hbk : ∀ ps st impl eps acc,
          evolves st (resState (build_kwargs (fuel + 1) st impl eps ps acc)) := by
        intro ps st impl eps acc
        cases ps with
        | nil => rw [build_kwargs]; exact evolves_refl st
        | cons p rest =>
          rw [build_kwargs]
          cases hsk : skipParam p with
          | true => simp only [hsk, if_true]; exact ihb st impl eps rest acc
          | false =>
            simp only [hsk, Bool.false_eq_true, if_false]
            cases he : look eps p.name with
            | some v =>
              simp only [he]
              exact ihb st impl eps rest (acc ++ [(p.name, .lit v)])
            | none =>
              simp only [he]
              cases ha : p.ann with
              | some a =>
                simp only [ha]
                cases hrk : hasKey st.registrations a with
                | true =>
                  simp only [hrk, if_true]
                  cases hg : get_instance fuel st a with
                  | ok v =>
                    obtain ⟨o, st'⟩ := v
                    have h1 : evolves st st' := by
                      have := ihg st a; rwa [hg] at this
                    simp only [hg]
                    exact evolves_trans h1
                      (ihb st' impl eps rest (acc ++ [(p.name, .inst o)]))
                  | error es =>
                    have := ihg st a
                    rw [hg] at this
                    simpa [hg, resState] using this
                | false =>
                  simp only [hrk, Bool.false_eq_true, if_false]
                  exact evolves_refl st
              | none => simp only [ha]; exact evolves_refl st
      refine ⟨fun st i => ?_, hc, fun st impl eps ps acc => hbk ps st impl eps acc⟩
      rw [get_instance]
      cases hr : look st.registrations i with
      | none => simp only [hr]; exact evolves_refl st
      | some b =>
        simp only [hr]
        cases hls : b.lifestyle with
        | Singleton =>
          simp only [hls]
          cases hs : look st.singletons i with
          | some o => simp only [hs]; exact evolves_refl st
          | none =>
            simp only [hs]
            cases hcr : create_instance fuel st b with
            | ok v =>
              obtain ⟨o, st'⟩ := v
              have h1 : evolves st st' := by
                have := ihc st b; rwa [hcr] at this
              simp only [hcr, resState]
              obtain ⟨a1, b1, c1, d1, e1⟩ := h1
              refine ⟨a1, b1, fun c o' hco => ?_, d1, e1⟩
              have hne : c ≠ i := by
                intro hci; subst hci
                rw [hs] at hco; exact Option.noConfusion hco
              rw [look_cons_ne _ _ hne]
              exact c1 c o' hco
            | error es =>
              have := ihc st b
              rw [hcr] at this
              simpa [hcr, resState] using this
        | Scoped =>
          simp only [hls]
          cases hact : st.scope_active with
          | false => simp only [hact, if_true]; exact evolves_refl st
          | true =>
            simp only [hact, Bool.true_eq_false, if_false]
            cases hs : look st.scoped_instances i with
            | some o => simp only [hs]; exact evolves_refl st
            | none =>
              simp only [hs]
              cases hcr : create_instance fuel st b with
              | ok v =>
                obtain ⟨o, st'⟩ := v
                have h1 : evolves st st' := by
                  have := ihc st b; rwa [hcr] at this
                simp only [hcr, resState]
                obtain ⟨a1, b1, c1, d1, e1⟩ := h1
                refine ⟨a1, b1, c1, fun c o' hco => ?_, e1⟩
                have hne : c ≠ i := by
                  intro hci; subst hci
                  rw [hs] at hco; exact Option.noConfusion hco
                rw [look_cons_ne _ _ hne]
                exact d1 c o' hco
              | error es =>
                have := ihc st b
                rw [hcr] at this
                simpa [hcr, resState] using this
        | PerRequest => simp only [hls]; exact ihc st b

/-- Evolution property of `get_instance` alone, for direct use. -/
theorem get_instance_evolves (fuel : Nat) (st : Injector) (i : Nat) :
    evolves st (resState (get_instance fuel st i)) := (evolvesAt fuel).1 st i

/-! ## Branch characterizations of `get_instance` -/
theorem lifestyleOf_some {st : Injector} {i : Nat} {ls : LifeStyle}
    (h : lifestyleOf st i = some ls) :
    ∃ b, look st.registrations i = some b ∧ b.lifestyle = ls := by
  unfold lifestyleOf at h
  cases hb : look st.registrations i with
  | none => rw [hb] at h; exact Option.noConfusion h
  | some b =>
      rw [hb] at h
      exact ⟨b, rfl, Option.some.injEq _ _ ▸ h⟩

/-- A Singleton contract with a store entry resolves to that entry and
leaves the state untouched. -/
theorem singleton_cached {st : Injector} {i o : Nat}
    (hls : lifestyleOf st i = some .Singleton)
    (hs : look st.singletons i = some o) (fuel : Nat) :
    get_instance (fuel + 1) st i = .ok (o, st) := by
  obtain ⟨b, hb, hbl⟩ := lifestyleOf_some hls
  rw [get_instance, hb]
  simp only [hbl, hs]

/-- A successful Singleton resolution leaves its result in the singleton
store. -/
theorem singleton_stored {fuel : Nat} {st st₁ : Injector} {i o : Nat}
    (hls : lifestyleOf st i = some .Singleton)
    (h : get_instance fuel st i = .ok (o, st₁)) :
    look st₁.singletons i = some o := by
  obtain ⟨b, hb, hbl⟩ := lifestyleOf_some hls
  cases fuel with
  | zero => rw [get_instance] at h; exact Except.noConfusion h
  | succ fuel =>
    rw [get_instance, hb] at h
    simp only [hbl] at h
    cases hs : look st.singletons i with
    | some o' =>
      rw [hs] at h
      obtain ⟨h1, h2⟩ := Prod.mk.injEq .. ▸ (Except.ok.injEq _ _ ▸ h)
      rw [← h2, ← h1]; exact hs
    | none =>
      rw [hs] at h
      cases hcr : create_instance fuel st b with
      | ok v =>
        obtain ⟨o', st'⟩ := v
        rw [hcr] at h
        obtain ⟨h1, h2⟩ := Prod.mk.injEq .. ▸ (Except.ok.injEq _ _ ▸ h)
        rw [← h2, ← h1]
        exact look_cons_self i o' st'.singletons
      | error es => rw [hcr] at h; exact Except.noConfusion h

/-- A Scoped contract, inside an active scope and with a store entry,
resolves to that entry and leaves the state untouched. -/
theorem scoped_cached {st : Injector} {i o : Nat}
    (hls : lifestyleOf st i = some .Scoped)
    (hact : st.scope_active = true)
    (hs : look st.scoped_instances i = some o) (fuel : Nat) :
    get_instance (fuel + 1) st i = .ok (o, st) := by
  obtain ⟨b, hb, hbl⟩ := lifestyleOf_some hls
  rw [get_instance, hb]
  simp only [hbl, hact, hs, Bool.true_eq_false, if_false]

/-- A successful Scoped resolution leaves its result in the scoped store. -/
theorem scoped_stored {fuel : Nat} {st st₁ : Injector} {i o : Nat}
    (hls : lifestyleOf st i = some .Scoped)
    (h : get_instance fuel st i = .ok (o, st₁)) :
    look st₁.scoped_instances i = some o := by
  obtain ⟨b, hb, hbl⟩ := lifestyleOf_some hls
  cases fuel with
  | zero => rw [get_instance] at h; exact Except.noConfusion h
  | succ fuel =>
    rw [get_instance, hb] at h
    simp only [hbl] at h
    cases hact : st.scope_active with
    | false => rw [hact] at h; simp at h
    | true =>
      rw [hact] at h
      simp only [Bool.true_eq_false, if_false] at h
      cases hs : look st.scoped_instances i with
      | some o' =>
        rw [hs] at h
        obtain ⟨h1, h2⟩ := Prod.mk.injEq .. ▸ (Except.ok.injEq _ _ ▸ h)
        rw [← h2, ← h1]; exact hs
      | none =>
        rw [hs] at h
        cases hcr : create_instance fuel st b with
        | ok v =>
          obtain ⟨o', st'⟩ := v
          rw [hcr] at h
          obtain ⟨h1, h2⟩ := Prod.mk.injEq .. ▸ (Except.ok.injEq _ _ ▸ h)
          rw [← h2, ← h1]
          exact look_cons_self i o' st'.scoped_instances
        | error es => rw [hcr] at h; exact Except.noConfusion h

/-- A Scoped resolution can only succeed while the scope flag is active. -/
theorem scoped_success_flag {fuel : Nat} {st st₁ : Injector} {i o : Nat}
    (hls : lifestyleOf st i = some .Scoped)
    (h : get_instance fuel st i = .ok (o, st₁)) :
    st.scope_active = true := by
  obtain ⟨b, hb, hbl⟩ := lifestyleOf_some hls
  cases fuel with
  | zero => rw [get_instance] at h; exact Except.noConfusion h
  | succ fuel =>
    rw [get_instance, hb] at h
    simp only [hbl] at h
    cases hact : st.scope_active with
    | true => rfl
    | false => rw [hact] at h; simp at h

/-- A build through a fresh-allocating strategy returns an object identity
not in use before the build and retires it afterwards. -/
theorem create_instance_fresh {fuel : Nat} {st st₁ : Injector} {b : Binding}
    {o : Nat} (halloc : allocates b.factory = true)
    (h : create_instance fuel st b = .ok (o, st₁)) :
    st.nextId ≤ o ∧ st₁.nextId = o + 1 := by
  cases fuel with
  | zero => rw [create_instance] at h; exact Except.noConfusion h
  | succ fuel =>
    rw [create_instance] at h
    cases hf : b.factory with
    | some f =>
      cases f with
      | fresh =>
        simp only [hf, runFactory] at h
        obtain ⟨h1, h2⟩ := Prod.mk.injEq .. ▸ (Except.ok.injEq _ _ ▸ h)
        rw [← h1, ← h2]
        exact ⟨Nat.le_refl _, rfl⟩
      | alwaysSame k => rw [hf] at halloc; simp [allocates] at halloc
    | none =>
      simp only [hf] at h
      cases hi : b.implementation with
      | none => simp only [hi] at h; exact Except.noConfusion h
      | some impl =>
        simp only [hi] at h
        cases hbk : build_kwargs fuel st impl b.params impl.params [] with
        | ok v =>
          obtain ⟨kwargs, st'⟩ := v
          simp only [hbk] at h
          obtain ⟨h1, h2⟩ := Prod.mk.injEq .. ▸ (Except.ok.injEq _ _ ▸ h)
          have hle : st.nextId ≤ st'.nextId := by
            have := ((evolvesAt fuel).2.2) st impl b.params impl.params []
            rw [hbk] at this
            exact this.2.2.2.2
          rw [← h1, ← h2]
          exact ⟨hle, rfl⟩
        | error es => simp only [hbk] at h; exact Except.noConfusion h

/-- A resolution that cannot be served from a store and whose construction
strategy allocates returns a brand-new object identity. -/
theorem get_instance_fresh {fuel : Nat} {st st₁ : Injector} {i o : Nat}
    {b : Binding} (hb : look st.registrations i = some b)
    (halloc : allocates b.factory = true) (hmiss : missAt st i b)
    (h : get_instance fuel st i = .ok (o, st₁)) :
    st.nextId ≤ o ∧ o < st₁.nextId := by
  cases fuel with
  | zero => rw [get_instance] at h; exact Except.noConfusion h
  | succ fuel =>
    rw [get_instance, hb] at h
    unfold missAt at hmiss
    cases hbl : b.lifestyle with
    | Singleton =>
      rw [hbl] at hmiss
      simp only [hbl, hmiss] at h
      cases hcr : create_instance fuel st b with
      | ok v =>
        obtain ⟨o', st'⟩ := v
        simp only [hcr] at h
        obtain ⟨h1, h2⟩ := Prod.mk.injEq .. ▸ (Except.ok.injEq _ _ ▸ h)
        obtain ⟨hfa, hfb⟩ := create_instance_fresh halloc hcr
        rw [← h1, ← h2]
        exact ⟨hfa, by simp [hfb]⟩
      | error es => simp only [hcr] at h; exact Except.noConfusion h
    | Scoped =>
      rw [hbl] at hmiss
      simp only [hbl] at h
      cases hact : st.scope_active with
      | false => rw [hact] at h; simp at h
      | true =>
        simp only [hact, Bool.true_eq_false, if_false, hmiss] at h
        cases hcr : create_instance fuel st b with
        | ok v =>
          obtain ⟨o', st'⟩ := v
          simp only [hcr] at h
          obtain ⟨h1, h2⟩ := Prod.mk.injEq .. ▸ (Except.ok.injEq _ _ ▸ h)
          obtain ⟨hfa, hfb⟩ := create_instance_fresh halloc hcr
          rw [← h1, ← h2]
          exact ⟨hfa, by simp [hfb]⟩
        | error es => simp only [hcr] at h; exact Except.noConfusion h
    | PerRequest =>
      simp only [hbl] at h
      obtain ⟨hfa, hfb⟩ := create_instance_fresh halloc h
      exact ⟨hfa, by omega⟩

/-! ## Preservation across arbitrary caller operations -/
theorem runOp_preserves_singleton (fuel : Nat) (st : Injector) (op : Op)
    {c o : Nat} (h : look st.singletons c = some o) :
    look (runOp fuel st op).singletons c = some o := by
  cases op with
  | register i impl ls ps f => exact h
  | enterScope => exact h
  | exitScope => exact h
  | resolve i =>
    have hev := get_instance_evolves fuel st i
    simp only [runOp]
    cases hg : get_instance fuel st i with
    | ok v =>
      obtain ⟨o', st'⟩ := v
      rw [hg] at hev
      exact hev.2.2.1 c o h
    | error es =>
      obtain ⟨e, st'⟩ := es
      rw [hg] at hev
      exact hev.2.2.1 c o h

theorem runOps_preserves_singleton (fuel : Nat) (st : Injector)
    (ops : List Op) {c o : Nat} (h : look st.singletons c = some o) :
    look (runOps fuel st ops).singletons c = some o := by
  induction ops generalizing st with
  | nil => exact h
  | cons op ops ih =>
    exact ih (runOp fuel st op) (runOp_preserves_singleton fuel st op h)

theorem runOp_nextId_mono (fuel : Nat) (st : Injector) (op : Op) :
    st.nextId ≤ (runOp fuel st op).nextId := by
  cases op with
  | register i impl ls ps f => exact Nat.le_refl _
  | enterScope => exact Nat.le_refl _
  | exitScope => exact Nat.le_refl _
  | resolve i =>
    have hev := get_instance_evolves fuel st i
    simp only [runOp]
    cases hg : get_instance fuel st i with
    | ok v =>
      obtain ⟨o', st'⟩ := v
      rw [hg] at hev
      exact hev.2.2.2.2
    | error es =>
      obtain ⟨e, st'⟩ := es
      rw [hg] at hev
      exact hev.2.2.2.2

theorem runOps_nextId_mono (fuel : Nat) (st : Injector) (ops : List Op) :
    st.nextId ≤ (runOps fuel st ops).nextId := by
  induction ops generalizing st with
  | nil => exact Nat.le_refl _
  | cons op ops ih =>
    exact (runOp_nextId_mono fuel st op).trans (ih (runOp fuel st op))

/-! ## Claim theorems -/
/-- C4: Resolving a contract registered with the Scoped lifecycle while no
scope is active fails with the ScopeInactive error, and the failure is
raised before any instance is built or any store is touched (the container
state carried by the error is exactly the entry state). -/
theorem scoped_without_scope_fails {st : Injector} {i : Nat}
    (hls : lifestyleOf st i = some .Scoped)
    (hact : st.scope_active = false) (fuel : Nat) :
    get_instance (fuel + 1) st i = .error (.scopeInactive, st) := by
  obtain ⟨b, hb, hbl⟩ := lifestyleOf_some hls
  rw [get_instance, hb]
  simp only [hbl, hact, if_true]

theorem scoped_without_scope_fails_witness :
    lifestyleOf demoInjector 3 = some .Scoped ∧
    demoInjector.scope_active = false ∧
    get_instance 10 demoInjector 3 = .error (.scopeInactive, demoInjector) :=
  ⟨rfl, rfl, @scoped_without_scope_fails demoInjector 3 rfl rfl 9⟩

/-- C7: If a binding has a factory, building an instance invokes the factory
with no arguments and returns its result, performing no constructor
introspection; the binding's implementation and explicitParams are ignored
entirely (replacing them changes nothing). -/
theorem factory_takes_precedence (fuel : Nat) (st : Injector) (b : Binding)
    {f : Factory} (hf : b.factory = some f) :
    create_instance (fuel + 1) st b = .ok (runFactory st f) ∧
    ∀ impl ps,
      create_instance (fuel + 1) st
          { b with implementation := impl, params := ps } =
        .ok (runFactory st f) := by
  constructor
  · rw [create_instance]; simp only [hf]
  · intro impl ps
    rw [create_instance]
    simp only [hf]

theorem factory_takes_precedence_witness :
    create_instance 10 demoInjector ⟨none, .PerRequest, [], some .fresh⟩ =
        .ok (runFactory demoInjector .fresh) ∧
    create_instance 10 demoInjector
        ⟨some ParametrizedClass, .PerRequest, [("level", 5)], some .fresh⟩ =
      .ok (runFactory demoInjector .fresh) :=
  ⟨(factory_takes_precedence 9 demoInjector ⟨none, .PerRequest, [], some .fresh⟩
      rfl).1,
   (factory_takes_precedence 9 demoInjector ⟨none, .PerRequest, [], some .fresh⟩
      rfl).2 (some ParametrizedClass) [("level", 5)]⟩

/-- C8: On entry the scope bracket sets the scope flag and empties the
scoped store; on every exit path — the work returning normally or failing —
it clears the flag and empties the scoped store again, so a failure inside
scoped work never leaves the flag active and no scoped instance survives
the bracket. -/
theorem scope_bracket_resets_on_every_exit (fuel : Nat) (st : Injector)
    (work : List Op) :
    (enterScope st).scope_active = true ∧
    (enterScope st).scoped_instances = [] ∧
    (∀ st', withScope fuel st work = .ok st' →
        st'.scope_active = false ∧ st'.scoped_instances = []) ∧
    (∀ e st', withScope fuel st work = .error (e, st') →
        st'.scope_active = false ∧ st'.scoped_instances = []) := by
  refine ⟨rfl, rfl, ?_, ?_⟩
  · intro st' h
    unfold withScope at h
    cases hr : runOpsE fuel (enterScope st) work with
    | ok u =>
      simp only [hr] at h
      obtain rfl := (Except.ok.injEq _ _ ▸ h)
      exact ⟨rfl, rfl⟩
    | error es => simp only [hr] at h; exact Except.noConfusion h
  · intro e st' h
    unfold withScope at h
    cases hr : runOpsE fuel (enterScope st) work with
    | ok u => simp only [hr] at h; exact Except.noConfusion h
    | error es =>
      obtain ⟨e', u⟩ := es
      simp only [hr] at h
      obtain ⟨h1, h2⟩ := Prod.mk.injEq .. ▸ (Except.error.injEq _ _ ▸ h)
      rw [← h2]
      exact ⟨rfl, rfl⟩

theorem scope_bracket_resets_on_every_exit_witness :
    (∀ st', withScope 10 demoInjector [.resolve 3, .resolve 9] = .ok st' →
        st'.scope_active = false ∧ st'.scoped_instances = []) ∧
    (∀ e st', withScope 10 demoInjector [.resolve 3, .resolve 9] =
          .error (e, st') →
        st'.scope_active = false ∧ st'.scoped_instances = []) ∧
    (∃ e st', withScope 10 demoInjector [.resolve 3, .resolve 9] =
        .error (e, st')) :=
  ⟨(scope_bracket_resets_on_every_exit 10 demoInjector
      [.resolve 3, .resolve 9]).2.2.1,
   (scope_bracket_resets_on_every_exit 10 demoInjector
      [.resolve 3, .resolve 9]).2.2.2,
   ⟨.unregisteredContract 9, _, rfl⟩⟩

/-- C10: Exiting any scope bracket unconditionally clears the scope flag and
the scoped store, even if an enclosing bracket is conceptually still open;
a Scoped resolution performed after the inner bracket's normal exit
therefore fails with ScopeInactive instead of using any outer store. -/
theorem inner_scope_exit_disables_outer {g : Nat} {st st₁ : Injector}
    {work : List Op} {i : Nat}
    (_houter : st.scope_active = true)
    (h : withScope g st work = .ok st₁)
    (hls : lifestyleOf st₁ i = some .Scoped) (fuel : Nat) :
    st₁.scope_active = false ∧ st₁.scoped_instances = [] ∧
    get_instance (fuel + 1) st₁ i = .error (.scopeInactive, st₁) := by
  obtain ⟨hflag, hstore⟩ :=
    (scope_bracket_resets_on_every_exit g st work).2.2.1 st₁ h
  exact ⟨hflag, hstore, scoped_without_scope_fails hls hflag fuel⟩

theorem inner_scope_exit_disables_outer_witness :
    c10Outer.scope_active = true ∧
    withScope 10 c10Outer [.resolve 1] = .ok c10After ∧
    c10After.scope_active = false ∧ c10After.scoped_instances = [] ∧
    get_instance 10 c10After 3 = .error (.scopeInactive, c10After) := by
  refine ⟨rfl, rfl, ?_⟩
  exact @inner_scope_exit_disables_outer 10 c10Outer c10After [.resolve 1] 3
    rfl rfl rfl 9

/-- C1: For a contract registered with the Singleton lifecycle, the first
successful resolution stores its instance in the singleton store, and every
later resolution — after arbitrary intervening container operations, inside
or outside any scope — returns that identical stored instance. -/
theorem singleton_resolutions_identical {fuel₁ fuel₂ g : Nat}
    {st st₁ st₂ : Injector} {c o o₂ : Nat} {ops : List Op}
    (hls : lifestyleOf st c = some .Singleton)
    (h1 : get_instance fuel₁ st c = .ok (o, st₁))
    (hls₂ : lifestyleOf (runOps g st₁ ops) c = some .Singleton)
    (h2 : get_instance fuel₂ (runOps g st₁ ops) c = .ok (o₂, st₂)) :
    o₂ = o ∧ look st₁.singletons c = some o ∧
    st₂ = runOps g st₁ ops := by
  have hstored : look st₁.singletons c = some o := singleton_stored hls h1
  have hkept : look (runOps g st₁ ops).singletons c = some o :=
    runOps_preserves_singleton g st₁ ops hstored
  cases fuel₂ with
  | zero => rw [get_instance] at h2; exact Except.noConfusion h2
  | succ fuel₂ =>
    rw [singleton_cached hls₂ hkept fuel₂] at h2
    obtain ⟨hp, hq⟩ := Prod.mk.injEq .. ▸ (Except.ok.injEq _ _ ▸ h2)
    exact ⟨hp.symm, hstored, hq.symm⟩

theorem singleton_resolutions_identical_witness :
    (0 : Nat) = 0 ∧ look c1AfterFirst.singletons 1 = some 0 ∧
    c1Later = c1Later :=
  @singleton_resolutions_identical 10 10 10 demoInjector c1AfterFirst c1Later
    1 0 0 c1Ops rfl rfl rfl rfl

theorem noUnregAt (fuel : Nat) : NoUnregAt fuel := by
  induction fuel with
  | zero =>
    refine ⟨fun st i _ j st' h => ?_, fun st b j st' h => ?_,
      fun st impl eps ps acc j st' h => ?_⟩
    · rw [get_instance] at h
      exact (DIError.noConfusion (Prod.mk.injEq .. ▸
        (Except.error.injEq _ _ ▸ h)).1)
    · rw [create_instance] at h
      exact (DIError.noConfusion (Prod.mk.injEq .. ▸
        (Except.error.injEq _ _ ▸ h)).1)
    · rw [build_kwargs] at h
      exact (DIError.noConfusion (Prod.mk.injEq .. ▸
        (Except.error.injEq _ _ ▸ h)).1)
  | succ fuel ih =>
    obtain ⟨ihg, ihc, ihb⟩ := ih
    have hbk : ∀ ps st impl eps acc j st',
        build_kwargs (fuel + 1) st impl eps ps acc ≠
          .error (.unregisteredContract j, st') := by
      intro ps st impl eps acc j st' h
      cases ps with
      | nil => rw [build_kwargs] at h; exact Except.noConfusion h
      | cons p rest =>
        rw [build_kwargs] at h
        cases hsk : skipParam p with
        | true =>
          simp only [hsk, if_true] at h
          exact ihb st impl eps rest acc j st' h
        | false =>
          simp only [hsk, Bool.false_eq_true, if_false] at h
          cases he : look eps p.name with
          | some v =>
            simp only [he] at h
            exact ihb st impl eps rest (acc ++ [(p.name, .lit v)]) j st' h
          | none =>
            simp only [he] at h
            cases ha : p.ann with
            | some a =>
              simp only [ha] at h
              cases hrk : hasKey st.registrations a with
              | true =>
                simp only [hrk, if_true] at h
                cases hg : get_instance fuel st a with
                | ok v =>
                  obtain ⟨o, st''⟩ := v
                  simp only [hg] at h
                  exact ihb st'' impl eps rest (acc ++ [(p.name, .inst o)]) j st' h
                | error es =>
                  obtain ⟨e, stE⟩ := es
                  simp only [hg] at h
                  obtain ⟨h1, h2⟩ := Prod.mk.injEq .. ▸
                    (Except.error.injEq _ _ ▸ h)
                  exact ihg st a hrk j st' (by rw [hg, h1, h2])
              | false =>
                simp only [hrk, Bool.false_eq_true, if_false] at h
                exact (DIError.noConfusion (Prod.mk.injEq .. ▸
                  (Except.error.injEq _ _ ▸ h)).1)
            | none =>
              simp only [ha] at h
              exact (DIError.noConfusion (Prod.mk.injEq .. ▸
                (Except.error.injEq _ _ ▸ h)).1)
    have hcr : ∀ st b j st',
        create_instance (fuel + 1) st b ≠ .error (.unregisteredContract j, st') := by
      intro st b j st' h
      rw [create_instance] at h
      cases hf : b.factory with
      | some f => simp only [hf] at h; exact Except.noConfusion h
      | none =>
        simp only [hf] at h
        cases hi : b.implementation with
        | none =>
          simp only [hi] at h
          exact (DIError.noConfusion (Prod.mk.injEq .. ▸
            (Except.error.injEq _ _ ▸ h)).1)
        | some impl =>
          simp only [hi] at h
          cases hb2 : build_kwargs fuel st impl b.params impl.params [] with
          | ok v =>
            obtain ⟨kwargs, st''⟩ := v
            simp only [hb2] at h
            exact Except.noConfusion h
          | error es =>
            obtain ⟨e, stE⟩ := es
            simp only [hb2] at h
            obtain ⟨h1, h2⟩ := Prod.mk.injEq .. ▸
              (Except.error.injEq _ _ ▸ h)
            exact ihb st impl b.params impl.params [] j st' (by rw [hb2, h1, h2])
    refine ⟨fun st i hk j st' h => ?_, hcr,
      fun st impl eps ps acc => hbk ps st impl eps acc⟩
    rw [get_instance] at h
    cases hb : look st.registrations i with
    | none => rw [hasKey, hb] at hk; exact Bool.noConfusion hk
    | some b =>
      simp only [hb] at h
      cases hbl : b.lifestyle with
      | Singleton =>
        simp only [hbl] at h
        cases hs : look st.singletons i with
        | some o => simp only [hs] at h; exact Except.noConfusion h
        | none =>
          simp only [hs] at h
          cases hcr2 : create_instance fuel st b with
          | ok v =>
            obtain ⟨o, st''⟩ := v
            simp only [hcr2] at h
            exact Except.noConfusion h
          | error es =>
            obtain ⟨e, stE⟩ := es
            simp only [hcr2] at h
            obtain ⟨h1, h2⟩ := Prod.mk.injEq .. ▸
              (Except.error.injEq _ _ ▸ h)
            exact ihc st b j st' (by rw [hcr2, h1, h2])
      | Scoped =>
        simp only [hbl] at h
        cases hact : st.scope_active with
        | false =>
          simp only [hact, if_true] at h
          exact (DIError.noConfusion (Prod.mk.injEq .. ▸
            (Except.error.injEq _ _ ▸ h)).1)
        | true =>
          simp only [hact, Bool.true_eq_false, if_false] at h
          cases hs : look st.scoped_instances i with
          | some o => simp only [hs] at h; exact Except.noConfusion h
          | none =>
            simp only [hs] at h
            cases hcr2 : create_instance fuel st b with
            | ok v =>
              obtain ⟨o, st''⟩ := v
              simp only [hcr2] at h
              exact Except.noConfusion h
            | error es =>
              obtain ⟨e, stE⟩ := es
              simp only [hcr2] at h
              obtain ⟨h1, h2⟩ := Prod.mk.injEq .. ▸
                (Except.error.injEq _ _ ▸ h)
              exact ihc st b j st' (by rw [hcr2, h1, h2])
      | PerRequest =>
        simp only [hbl] at h
        exact ihc st b j st' h

/-- C5: resolving an unregistered contract fails with UnregisteredContract
(surfaced to the caller with the state untouched), and a resolution of a
registered contract never produces that error for any contract. -/
theorem unregistered_contract_error_exactly_when_unregistered
    (fuel : Nat) (st : Injector) (i : Nat) :
    (look st.registrations i = none →
      get_instance (fuel + 1) st i = .error (.unregisteredContract i, st)) ∧
    (hasKey st.registrations i = true →
      ∀ j st', get_instance (fuel + 1) st i ≠
        .error (.unregisteredContract j, st')) := by
  constructor
  · intro h
    rw [get_instance, h]
  · intro hk j st'
    exact (noUnregAt (fuel + 1)).1 st i hk j st'

theorem unregistered_contract_error_exactly_when_unregistered_witness :
    (look demoInjector.registrations 9 = none →
      get_instance 10 demoInjector 9 = .error (.unregisteredContract 9, demoInjector)) ∧
    (look demoInjector.registrations 9 = none) ∧
    (hasKey demoInjector.registrations 3 = true →
      ∀ j st', get_instance 10 demoInjector 3 ≠
        .error (.unregisteredContract j, st')) ∧
    hasKey demoInjector.registrations 3 = true :=
  ⟨(unregistered_contract_error_exactly_when_unregistered 9 demoInjector 9).1,
   rfl,
   (unregistered_contract_error_exactly_when_unregistered 9 demoInjector 3).2,
   rfl⟩

/-- C3 counterexample: a PerRequest contract registered with a factory that
returns a fixed pre-existing object (`lambda: OBJ`) yields the identical
object — 42 — on two consecutive resolutions, so PerRequest resolutions of
factory registrations are not always distinct. -/
theorem perRequest_factory_counterexample :
    lifestyleOf c3CexInjector 1 = some .PerRequest ∧
    get_instance 10 c3CexInjector 1 = .ok (42, c3CexInjector) ∧
    get_instance 10 (resState (get_instance 10 c3CexInjector 1)) 1 =
      .ok (42, resState (get_instance 10 c3CexInjector 1)) :=
  ⟨rfl, rfl, rfl⟩

/-- C3 (amended): for a PerRequest contract whose effective construction
strategy allocates — a constructor-built implementation or a
fresh-allocating factory — two resolutions return distinct objects, even
with identical arguments; a factory returning a fixed object is exempt. -/
theorem perRequest_resolutions_distinct {fuel₁ fuel₂ : Nat}
    {st st₁ st₂ : Injector} {i o₁ o₂ : Nat} {b : Binding}
    (hb : look st.registrations i = some b) (hbl : b.lifestyle = .PerRequest)
    (halloc : allocates b.factory = true)
    (h1 : get_instance fuel₁ st i = .ok (o₁, st₁))
    (h2 : get_instance fuel₂ st₁ i = .ok (o₂, st₂)) :
    o₁ ≠ o₂ := by
  have hmiss : missAt st i b := by unfold missAt; rw [hbl]; trivial
  have hmiss₁ : missAt st₁ i b := by unfold missAt; rw [hbl]; trivial
  obtain ⟨hl1, hr1⟩ := get_instance_fresh hb halloc hmiss h1
  have hev := get_instance_evolves fuel₁ st i
  rw [h1] at hev
  have hb₁ : look st₁.registrations i = some b := by
    have : st₁.registrations = st.registrations := hev.1
    rw [this]; exact hb
  obtain ⟨hl2, hr2⟩ := get_instance_fresh hb₁ halloc hmiss₁ h2
  omega

theorem perRequest_resolutions_distinct_witness : (0 : Nat) ≠ 1 :=
  @perRequest_resolutions_distinct 10 10 demoInjector
    (resState (get_instance 10 demoInjector 2))
    (resState (get_instance 10 (resState (get_instance 10 demoInjector 2)) 2))
    2 0 1 c3Binding rfl rfl rfl rfl rfl

/-- C2 counterexample: a Scoped contract registered with a factory that
returns a fixed pre-existing object resolves to the identical object — 42 —
in two separate, consecutive scope brackets, so the second scope's instance
is not always distinct from the first's. -/
theorem scoped_across_scopes_counterexample :
    lifestyleOf c2CexInjector 1 = some .Scoped ∧
    get_instance 10 (enterScope c2CexInjector) 1 = .ok (42, c2CexScope1) ∧
    get_instance 10 (enterScope (exitScope c2CexScope1)) 1 =
      .ok (42, { enterScope (exitScope c2CexScope1) with
                 scoped_instances := [(1, 42)] }) :=
  ⟨rfl, rfl, rfl⟩

/-- A Scoped resolution served by a build through a factory that returns a
fixed pre-existing object returns exactly that object. -/
theorem scoped_const_factory_resolution {fuel : Nat} {st st' : Injector}
    {i o k : Nat} {b : Binding}
    (hb : look st.registrations i = some b) (hbl : b.lifestyle = .Scoped)
    (hfac : b.factory = some (.alwaysSame k))
    (hmiss : look st.scoped_instances i = none)
    (h : get_instance fuel st i = .ok (o, st')) : o = k := by
  cases fuel with
  | zero => rw [get_instance] at h; exact Except.noConfusion h
  | succ fuel =>
    rw [get_instance, hb] at h
    simp only [hbl] at h
    cases hact : st.scope_active with
    | false => rw [hact] at h; simp at h
    | true =>
      rw [hact] at h
      simp only [Bool.true_eq_false, if_false, hmiss] at h
      cases fuel with
      | zero => rw [create_instance] at h; simp at h
      | succ g =>
        rw [create_instance] at h
        simp only [hfac, runFactory] at h
        obtain ⟨h1, h2⟩ := Prod.mk.injEq .. ▸ (Except.ok.injEq _ _ ▸ h)
        exact h1.symm

/-- C2 (amended): for a Scoped contract, two resolutions inside the same
scope bracket return the identical instance — unconditionally; if the
contract's effective construction strategy allocates (constructor-built
implementations or fresh-allocating factories), a resolution in a
subsequent, separate scope bracket returns an instance distinct from the
first scope's; and a binding whose factory returns a fixed pre-existing
object resolves to that same object in every scope. -/
theorem scoped_same_scope_identical_new_scope_distinct
    {fuel₁ fuel₂ fuel₃ g : Nat} {st₀ st₁ st₂ st₃ : Injector}
    {i o₁ o₁' o₂ : Nat} {b b' : Binding} {ops : List Op}
    (hb : look st₀.registrations i = some b) (hbl : b.lifestyle = .Scoped)
    (h1 : get_instance fuel₁ (enterScope st₀) i = .ok (o₁, st₁))
    (h1' : get_instance fuel₂ st₁ i = .ok (o₁', st₂))
    (hb' : look (runOps g st₂ ops).registrations i = some b')
    (hbl' : b'.lifestyle = .Scoped)
    (h2 : get_instance fuel₃ (enterScope (runOps g st₂ ops)) i = .ok (o₂, st₃)) :
    o₁' = o₁ ∧
    (allocates b.factory = true → allocates b'.factory = true → o₂ ≠ o₁) ∧
    (∀ k, b.factory = some (.alwaysSame k) → o₁ = k) ∧
    (∀ k, b'.factory = some (.alwaysSame k) → o₂ = k) := by
  have hbe : look (enterScope st₀).registrations i = some b := hb
  have hlse : lifestyleOf (enterScope st₀) i = some .Scoped := by
    unfold lifestyleOf
    rw [hbe]
    simp [hbl]
  have hev := get_instance_evolves fuel₁ (enterScope st₀) i
  rw [h1] at hev
  have hls₁ : lifestyleOf st₁ i = some .Scoped := by
    unfold lifestyleOf
    have hregs : st₁.registrations = (enterScope st₀).registrations := hev.1
    rw [hregs, hbe]
    simp [hbl]
  have hstored : look st₁.scoped_instances i = some o₁ := scoped_stored hlse h1
  have hflag₁ : st₁.scope_active = true := by
    have hfe : st₁.scope_active = (enterScope st₀).scope_active := hev.2.1
    rw [hfe]; rfl
  have hsame : o₁' = o₁ ∧ st₂ = st₁ := by
    cases fuel₂ with
    | zero => rw [get_instance] at h1'; exact Except.noConfusion h1'
    | succ fuel₂ =>
      rw [scoped_cached hls₁ hflag₁ hstored fuel₂] at h1'
      obtain ⟨hp, hq⟩ := Prod.mk.injEq .. ▸ (Except.ok.injEq _ _ ▸ h1')
      exact ⟨hp.symm, hq.symm⟩
  have hb'e : look (enterScope (runOps g st₂ ops)).registrations i = some b' := hb'
  have hmiss : look (enterScope st₀).scoped_instances i = none := rfl
  have hmiss' :
      look (enterScope (runOps g st₂ ops)).scoped_instances i = none := rfl
  refine ⟨hsame.1, ?_, ?_, ?_⟩
  · intro halloc halloc'
    have hmA : missAt (enterScope st₀) i b := by
      unfold missAt; rw [hbl]; exact hmiss
    have hmA' : missAt (enterScope (runOps g st₂ ops)) i b' := by
      unfold missAt; rw [hbl']; exact hmiss'
    obtain ⟨hl1, hr1⟩ := get_instance_fresh hbe halloc hmA h1
    obtain ⟨hl2, hr2⟩ := get_instance_fresh hb'e halloc' hmA' h2
    have hmono : st₂.nextId ≤ (runOps g st₂ ops).nextId :=
      runOps_nextId_mono g st₂ ops
    have hnid : st₂.nextId = st₁.nextId := by rw [hsame.2]
    have hent : (enterScope (runOps g st₂ ops)).nextId =
        (runOps g st₂ ops).nextId := rfl
    omega
  · intro k hfac
    exact scoped_const_factory_resolution hbe hbl hfac hmiss h1
  · intro k hfac
    exact scoped_const_factory_resolution hb'e hbl' hfac hmiss' h2

theorem scoped_same_scope_identical_new_scope_distinct_witness :
    ((1 : Nat) = 1 ∧ (2 : Nat) ≠ 1) ∧ (42 : Nat) = 42 ∧ (42 : Nat) = 42 := by
  constructor
  · have hA := @scoped_same_scope_identical_new_scope_distinct 10 10 10 10
      demoInjector c2Scope1 c2Scope1
      (resState (get_instance 10 (enterScope (runOps 10 c2Scope1 [.exitScope])) 3))
      3 1 1 2 c2Binding c2Binding [.exitScope]
      rfl rfl rfl rfl rfl rfl rfl
    exact ⟨hA.1, hA.2.1 rfl rfl⟩
  · have hB := @scoped_same_scope_identical_new_scope_distinct 10 10 10 10
      c2CexInjector c2CexScope1 c2CexScope1
      (resState (get_instance 10 (enterScope (runOps 10 c2CexScope1 [.exitScope])) 1))
      1 42 42 42 c2CexBinding c2CexBinding [.exitScope]
      rfl rfl rfl rfl rfl rfl rfl
    exact ⟨hB.2.2.1 42 rfl, hB.2.2.2 42 rfl⟩

/-- C6: during a non-factory build, a constructor parameter (other than the
receiver and variadic parameters) with no explicitParams entry whose
declared type is not a registered contract fails the resolution with
UnresolvableDependency naming the parameter and the implementation; a
parameter with an explicitParams entry contributes that literal value; a
parameter whose declared type is registered is recursively resolved, with
parameters processed in declaration order; and a failing parameter loop is
surfaced unchanged as the failure of the build. -/
theorem constructor_introspection (fuel : Nat) (st : Injector) (impl : Impl)
    (eps : List (String × Nat)) (p : Param) (rest : List Param)
    (acc : List (String × Arg)) :
    (skipParam p = false → look eps p.name = none →
      (∀ a, p.ann = some a → hasKey st.registrations a = false) →
      build_kwargs (fuel + 1) st impl eps (p :: rest) acc =
        .error (.unresolvableDependency p.name impl.name, st)) ∧
    (∀ v, skipParam p = false → look eps p.name = some v →
      build_kwargs (fuel + 1) st impl eps (p :: rest) acc =
        build_kwargs fuel st impl eps rest (acc ++ [(p.name, .lit v)])) ∧
    (∀ a o st', skipParam p = false → look eps p.name = none →
      p.ann = some a → hasKey st.registrations a = true →
      get_instance fuel st a = .ok (o, st') →
      build_kwargs (fuel + 1) st impl eps (p :: rest) acc =
        build_kwargs fuel st' impl eps rest (acc ++ [(p.name, .inst o)])) ∧
    (∀ b e stE, b.factory = none → b.implementation = some impl →
      build_kwargs fuel st impl b.params impl.params [] = .error (e, stE) →
      create_instance (fuel + 1) st b = .error (e, stE)) := by
  refine ⟨?_, ?_, ?_, ?_⟩
  · intro hsk he ha
    rw [build_kwargs]
    simp only [hsk, Bool.false_eq_true, if_false, he]
    cases hann : p.ann with
    | none => rfl
    | some a => simp only [ha a hann, Bool.false_eq_true, if_false]
  · intro v hsk he
    rw [build_kwargs]
    simp only [hsk, Bool.false_eq_true, if_false, he]
  · intro a o st' hsk he hann hreg hg
    rw [build_kwargs]
    simp only [hsk, Bool.false_eq_true, if_false, he, hann, hreg, if_true, hg]
  · intro b e stE hf hi hbk
    rw [create_instance]
    simp only [hf, hi, hbk]

theorem constructor_introspection_witness :
    build_kwargs 10 demoInjector ParametrizedClass c6Eps
        [c6NameParam, ⟨"level", .normal, some 101⟩] [] =
      .error (.unresolvableDependency "name" "ParametrizedClass", demoInjector) ∧
    build_kwargs 11 demoInjector ParametrizedClass c6Eps
        [⟨"level", .normal, some 101⟩] [("name", .lit 7)] =
      build_kwargs 10 demoInjector ParametrizedClass c6Eps []
        [("name", .lit 7), ("level", .lit 5)] ∧
    build_kwargs 12 (enterScope demoInjector) Class3_Debug []
        [⟨"dep", .normal, some 1⟩] [] =
      build_kwargs 11 (resState (get_instance 11 (enterScope demoInjector) 1))
        Class3_Debug [] [] [("dep", .inst 0)] ∧
    create_instance 11 demoInjector c6Binding =
      .error (.unresolvableDependency "name" "ParametrizedClass", demoInjector) := by
  refine ⟨?_, ?_, ?_, ?_⟩
  · exact (constructor_introspection 9 demoInjector ParametrizedClass c6Eps
      c6NameParam [⟨"level", .normal, some 101⟩] []).1 rfl rfl
      (fun a ha => by cases ha; rfl)
  · exact (constructor_introspection 10 demoInjector ParametrizedClass c6Eps
      ⟨"level", .normal, some 101⟩ [] [("name", .lit 7)]).2.1 5 rfl rfl
  · exact (constructor_introspection 11 (enterScope demoInjector) Class3_Debug
      [] ⟨"dep", .normal, some 1⟩ [] []).2.2.1 1 0
      (resState (get_instance 11 (enterScope demoInjector) 1)) rfl rfl rfl rfl rfl
  · exact (constructor_introspection 10 demoInjector ParametrizedClass
      c6Eps c6NameParam [] []).2.2.2 c6Binding
      (.unresolvableDependency "name" "ParametrizedClass") demoInjector rfl rfl rfl

theorem poisonP_mono {R : List (Nat × Binding)} {C C' : List Nat}
    {eps : List (String × Nat)} {p : Param}
    (hsub : ∀ a, a ∈ C → a ∈ C') (h : poisonP R C eps p) :
    poisonP R C' eps p := by
  obtain ⟨h1, h2, h3⟩ := h
  refine ⟨h1, h2, ?_⟩
  cases ha : p.ann with
  | none => trivial
  | some a =>
    rw [ha] at h3
    cases h3 with
    | inl h3 => exact Or.inl h3
    | inr h3 => exact Or.inr (hsub a h3)

theorem bindingPoison_mono {R : List (Nat × Binding)} {C C' : List Nat}
    {b : Binding} (hsub : ∀ a, a ∈ C → a ∈ C')
    (h : bindingPoison R C b) : bindingPoison R C' b := by
  obtain ⟨h1, h2⟩ := h
  refine ⟨h1, ?_⟩
  cases h2 with
  | inl h2 => exact Or.inl h2
  | inr h2 =>
    obtain ⟨impl, hi, p, hp, hpp⟩ := h2
    exact Or.inr ⟨impl, hi, p, hp, poisonP_mono hsub hpp⟩

theorem memberPoison_mono {R : List (Nat × Binding)} {φ : Bool}
    {C C' : List Nat} {y : Nat} (hsub : ∀ a, a ∈ C → a ∈ C')
    (h : memberPoison R φ C y) : memberPoison R φ C' y := by
  obtain ⟨b, hb, h2⟩ := h
  refine ⟨b, hb, ?_⟩
  cases h2 with
  | inl h2 => exact Or.inl h2
  | inr h2 => exact Or.inr (bindingPoison_mono hsub h2)

theorem lifestyleOf_congr {st st' : Injector} (y : Nat)
    (h : st'.registrations = st.registrations) :
    lifestyleOf st' y = lifestyleOf st y := by
  unfold lifestyleOf; rw [h]

theorem storeDisciplineAt (fuel : Nat) : StoreDisciplineAt fuel := by
  induction fuel with
  | zero =>
    exact ⟨fun st d y _ h => h, fun st b y _ h => h,
      fun st impl eps ps acc y _ h => h, fun st d y _ h => h,
      fun st b y _ h => h, fun st impl eps ps acc y _ h => h⟩
  | succ fuel ih =>
    obtain ⟨ihg, ihc, ihb, ihg2, ihc2, ihb2⟩ := ih
    have hbk : ∀ ps st impl eps acc y,
        (lifestyleOf st y ≠ some .Singleton →
          look st.singletons y = none →
          look (resState (build_kwargs (fuel + 1) st impl eps ps acc)).singletons y
            = none) ∧
        ((lifestyleOf st y ≠ some .Scoped ∨ st.scope_active = false) →
          look st.scoped_instances y = none →
          look (resState (build_kwargs (fuel + 1) st impl eps ps acc)).scoped_instances y
            = none) := by
      intro ps st impl eps acc y
      cases ps with
      | nil => rw [build_kwargs]; exact ⟨fun _ h => h, fun _ h => h⟩
      | cons p rest =>
        rw [build_kwargs]
        cases hsk : skipParam p with
        | true =>
          simp only [hsk, if_true]
          exact ⟨fun hc h => ihb st impl eps rest acc y hc h,
            fun hc h => ihb2 st impl eps rest acc y hc h⟩
        | false =>
          simp only [hsk, Bool.false_eq_true, if_false]
          cases he : look eps p.name with
          | some v =>
            simp only [he]
            exact ⟨fun hc h => ihb st impl eps rest _ y hc h,
              fun hc h => ihb2 st impl eps rest _ y hc h⟩
          | none =>
            simp only [he]
            cases ha : p.ann with
            | some a =>
              simp only [ha]
              cases hrk : hasKey st.registrations a with
              | true =>
                simp only [hrk, if_true]
                cases hg : get_instance fuel st a with
                | ok v =>
                  obtain ⟨o, st₂⟩ := v
                  simp only [hg]
                  have hev := get_instance_evolves fuel st a
                  rw [hg] at hev
                  simp only [resState] at hev
                  constructor
                  · intro hc h
                    have hc₂ : lifestyleOf st₂ y ≠ some .Singleton := by
                      rw [lifestyleOf_congr y hev.1]; exact hc
                    have h₂ : look st₂.singletons y = none := by
                      have := ihg st a y hc h
                      rw [hg] at this; exact this
                    exact ihb st₂ impl eps rest _ y hc₂ h₂
                  · intro hc h
                    have hc₂ : lifestyleOf st₂ y ≠ some .Scoped ∨
                        st₂.scope_active = false := by
                      cases hc with
                      | inl hc =>
                        exact Or.inl (by rw [lifestyleOf_congr y hev.1]; exact hc)
                      | inr hc => exact Or.inr (by rw [hev.2.1]; exact hc)
                    have h₂ : look st₂.scoped_instances y = none := by
                      have := ihg2 st a y hc h
                      rw [hg] at this; exact this
                    exact ihb2 st₂ impl eps rest _ y hc₂ h₂
                | error es =>
                  simp only [hg]
                  constructor
                  · intro hc h
                    have := ihg st a y hc h
                    rw [hg] at this; exact this
                  · intro hc h
                    have := ihg2 st a y hc h
                    rw [hg] at this; exact this
              | false =>
                simp only [hrk, Bool.false_eq_true, if_false]
                exact ⟨fun _ h => h, fun _ h => h⟩
            | none =>
              simp only [ha]
              exact ⟨fun _ h => h, fun _ h => h⟩
    have hci : ∀ st b y,
        (lifestyleOf st y ≠ some .Singleton →
          look st.singletons y = none →
          look (resState (create_instance (fuel + 1) st b)).singletons y = none) ∧
        ((lifestyleOf st y ≠ some .Scoped ∨ st.scope_active = false) →
          look st.scoped_instances y = none →
          look (resState (create_instance (fuel + 1) st b)).scoped_instances y
            = none) := by
      intro st b y
      rw [create_instance]
      cases hf : b.factory with
      | some f =>
        cases f with
        | fresh => exact ⟨fun _ h => h, fun _ h => h⟩
        | alwaysSame o => exact ⟨fun _ h => h, fun _ h => h⟩
      | none =>
        cases hi : b.implementation with
        | none => exact ⟨fun _ h => h, fun _ h => h⟩
        | some impl =>
          cases hb : build_kwargs fuel st impl b.params impl.params [] with
          | ok v =>
            obtain ⟨kwargs, st₂⟩ := v
            simp only [hb]
            constructor
            · intro hc h
              have := ihb st impl b.params impl.params [] y hc h
              rw [hb] at this
              exact this
            · intro hc h
              have := ihb2 st impl b.params impl.params [] y hc h
              rw [hb] at this
              exact this
          | error es =>
            simp only [hb]
            constructor
            · intro hc h
              have := ihb st impl b.params impl.params [] y hc h
              rw [hb] at this; exact this
            · intro hc h
              have := ihb2 st impl b.params impl.params [] y hc h
              rw [hb] at this; exact this
    refine ⟨?_, fun st b y => (hci st b y).1,
      fun st impl eps ps acc y => (hbk ps st impl eps acc y).1, ?_,
      fun st b y => (hci st b y).2,
      fun st impl eps ps acc y => (hbk ps st impl eps acc y).2⟩
    · intro st d y hc h
      rw [get_instance]
      cases hr : look st.registrations d with
      | none => simpa using h
      | some b =>
        simp only [hr]
        cases hbl : b.lifestyle with
        | Singleton =>
          simp only [hbl]
          cases hs : look st.singletons d with
          | some o => simpa using h
          | none =>
            simp only [hs]
            cases hcr : create_instance fuel st b with
            | ok v =>
              obtain ⟨o, st₂⟩ := v
              simp only [hcr, resState]
              have hyd : y ≠ d := by
                intro hyd; subst hyd
                apply hc
                unfold lifestyleOf
                rw [hr]
                simp [hbl]
              rw [look_cons_ne _ _ hyd]
              have := ihc st b y hc h
              rw [hcr] at this; exact this
            | error es =>
              simp only [hcr]
              have := ihc st b y hc h
              rw [hcr] at this; exact this
        | Scoped =>
          simp only [hbl]
          cases hact : st.scope_active with
          | false => simpa using h
          | true =>
            simp only [hact, Bool.true_eq_false, if_false]
            cases hs : look st.scoped_instances d with
            | some o => simpa using h
            | none =>
              simp only [hs]
              cases hcr : create_instance fuel st b with
              | ok v =>
                obtain ⟨o, st₂⟩ := v
                simp only [hcr, resState]
                have := ihc st b y hc h
                rw [hcr] at this; exact this
              | error es =>
                simp only [hcr]
                have := ihc st b y hc h
                rw [hcr] at this; exact this
        | PerRequest =>
          simp only [hbl]
          have := ihc st b y hc h
          exact this
    · intro st d y hc h
      rw [get_instance]
      cases hr : look st.registrations d with
      | none => simpa using h
      | some b =>
        simp only [hr]
        cases hbl : b.lifestyle with
        | Singleton =>
          simp only [hbl]
          cases hs : look st.singletons d with
          | some o => simpa using h
          | none =>
            simp only [hs]
            cases hcr : create_instance fuel st b with
            | ok v =>
              obtain ⟨o, st₂⟩ := v
              simp only [hcr, resState]
              have := ihc2 st b y hc h
              rw [hcr] at this; exact this
            | error es =>
              simp only [hcr]
              have := ihc2 st b y hc h
              rw [hcr] at this; exact this
        | Scoped =>
          simp only [hbl]
          cases hact : st.scope_active with
          | false => simpa using h
          | true =>
            simp only [hact, Bool.true_eq_false, if_false]
            cases hs : look st.scoped_instances d with
            | some o => simpa using h
            | none =>
              simp only [hs]
              cases hcr : create_instance fuel st b with
              | ok v =>
                obtain ⟨o, st₂⟩ := v
                simp only [hcr, resState]
                have hyd : y ≠ d := by
                  intro hyd; subst hyd
                  cases hc with
                  | inl hc =>
                    apply hc
                    unfold lifestyleOf
                    rw [hr]
                    simp [hbl]
                  | inr hc => rw [hc] at hact; exact Bool.noConfusion hact
                rw [look_cons_ne _ _ hyd]
                have := ihc2 st b y hc h
                rw [hcr] at this; exact this
              | error es =>
                simp only [hcr]
                have := ihc2 st b y hc h
                rw [hcr] at this; exact this
        | PerRequest =>
          simp only [hbl]
          exact ihc2 st b y hc h

theorem poisonPackAt (R : List (Nat × Binding)) (φ : Bool) (C : List Nat)
    (HP : ∀ y, y ∈ C → memberPoison R φ C y) (fuel : Nat) :
    PoisonPackAt R φ C fuel := by
  induction fuel with
  | zero =>
    exact ⟨fun st d hG => hG, fun st d _ _ => rfl, fun st b hG => hG,
      fun st b _ _ => rfl, fun st impl eps ps acc hG => hG,
      fun st impl eps ps acc _ _ => rfl⟩
  | succ fuel ih =>
    obtain ⟨ihg, ihgf, ihc, ihcf, ihb, ihbf⟩ := ih
    have hbkP : ∀ ps st impl eps acc, GoodFor R φ C st →
        GoodFor R φ C (resState (build_kwargs (fuel + 1) st impl eps ps acc)) := by
      intro ps st impl eps acc hG
      cases ps with
      | nil => rw [build_kwargs]; exact hG
      | cons p rest =>
        rw [build_kwargs]
        cases hsk : skipParam p with
        | true => simp only [hsk, if_true]; exact ihb st impl eps rest acc hG
        | false =>
          simp only [hsk, Bool.false_eq_true, if_false]
          cases he : look eps p.name with
          | some v => simp only [he]; exact ihb st impl eps rest _ hG
          | none =>
            simp only [he]
            cases ha : p.ann with
            | some a =>
              simp only [ha]
              cases hrk : hasKey st.registrations a with
              | true =>
                simp only [hrk, if_true]
                cases hg : get_instance fuel st a with
                | ok v =>
                  obtain ⟨o, st₂⟩ := v
                  simp only [hg]
                  have hG₂ := ihg st a hG
                  rw [hg] at hG₂
                  exact ihb st₂ impl eps rest _ hG₂
                | error es =>
                  simp only [hg]
                  have hG₂ := ihg st a hG
                  rw [hg] at hG₂
                  exact hG₂
              | false =>
                simp only [hrk, Bool.false_eq_true, if_false]
                exact hG
            | none => simp only [ha]; exact hG
    have hbkF : ∀ ps st impl eps acc, GoodFor R φ C st →
        (∃ p, p ∈ ps ∧ poisonP R C eps p) →
        isOkB (build_kwargs (fuel + 1) st impl eps ps acc) = false := by
      intro ps st impl eps acc hG hex
      obtain ⟨p, hpmem, hpois⟩ := hex
      cases ps with
      | nil => exact absurd hpmem (List.not_mem_nil p)
      | cons q rest =>
        rw [build_kwargs]
        have hpmem' : p = q ∨ p ∈ rest := List.mem_cons.mp hpmem
        cases hsk : skipParam q with
        | true =>
          simp only [hsk, if_true]
          have hprest : p ∈ rest := by
            cases hpmem' with
            | inl hpq => rw [hpq] at hpois; rw [hpois.1] at hsk
                         exact Bool.noConfusion hsk
            | inr hp => exact hp
          exact ihbf st impl eps rest acc hG ⟨p, hprest, hpois⟩
        | false =>
          simp only [hsk, Bool.false_eq_true, if_false]
          cases he : look eps q.name with
          | some v =>
            simp only [he]
            have hprest : p ∈ rest := by
              cases hpmem' with
              | inl hpq => rw [hpq] at hpois; rw [hpois.2.1] at he
                           exact Option.noConfusion he
              | inr hp => exact hp
            exact ihbf st impl eps rest _ hG ⟨p, hprest, hpois⟩
          | none =>
            simp only [he]
            cases ha : q.ann with
            | some a =>
              simp only [ha]
              cases hrk : hasKey st.registrations a with
              | true =>
                simp only [hrk, if_true]
                cases hg : get_instance fuel st a with
                | ok v =>
                  obtain ⟨o, st₂⟩ := v
                  simp only [hg]
                  have hprest : p ∈ rest := by
                    cases hpmem' with
                    | inl hpq =>
                      exfalso
                      rw [hpq] at hpois
                      obtain ⟨_, _, hbad⟩ := hpois
                      rw [ha] at hbad
                      cases hbad with
                      | inl hbad =>
                        rw [hG.1] at hrk
                        rw [hbad] at hrk
                        exact Bool.noConfusion hrk
                      | inr hbad =>
                        have := ihgf st a hbad hG
                        rw [hg] at this
                        simp [isOkB] at this
                    | inr hp => exact hp
                  have hG₂ := ihg st a hG
                  rw [hg] at hG₂
                  exact ihbf st₂ impl eps rest _ hG₂ ⟨p, hprest, hpois⟩
                | error es => simp only [hg]; rfl
              | false => simp only [hrk, Bool.false_eq_true, if_false]; rfl
            | none => simp only [ha]; rfl
    have hciP : ∀ st b, GoodFor R φ C st →
        GoodFor R φ C (resState (create_instance (fuel + 1) st b)) := by
      intro st b hG
      rw [create_instance]
      cases hf : b.factory with
      | some f =>
        cases f with
        | fresh => exact ⟨hG.1, hG.2.1, hG.2.2⟩
        | alwaysSame o => exact hG
      | none =>
        cases hi : b.implementation with
        | none => exact hG
        | some impl =>
          cases hb : build_kwargs fuel st impl b.params impl.params [] with
          | ok v =>
            obtain ⟨kwargs, st₂⟩ := v
            simp only [hb]
            have hG₂ := ihb st impl b.params impl.params [] hG
            rw [hb] at hG₂
            exact ⟨hG₂.1, hG₂.2.1, hG₂.2.2⟩
          | error es =>
            simp only [hb]
            have hG₂ := ihb st impl b.params impl.params [] hG
            rw [hb] at hG₂
            exact hG₂
    have hciF : ∀ st b, GoodFor R φ C st → bindingPoison R C b →
        isOkB (create_instance (fuel + 1) st b) = false := by
      intro st b hG hbp
      obtain ⟨hfn, hrest⟩ := hbp
      rw [create_instance]
      simp only [hfn]
      cases hrest with
      | inl hin => simp only [hin]; rfl
      | inr hin =>
        obtain ⟨impl, himpl, p, hpmem, hpois⟩ := hin
        simp only [himpl]
        have := ihbf st impl b.params impl.params [] hG ⟨p, hpmem, hpois⟩
        cases hb : build_kwargs fuel st impl b.params impl.params [] with
        | ok v =>
          rw [hb] at this
          simp [isOkB] at this
        | error es => simp only [hb]; rfl
    refine ⟨?_, ?_, hciP, hciF, fun st impl eps ps acc => hbkP ps st impl eps acc,
      fun st impl eps ps acc => hbkF ps st impl eps acc⟩
    · intro st d hG
      rw [get_instance]
      cases hr : look st.registrations d with
      | none => exact hG
      | some b =>
        simp only [hr]
        cases hbl : b.lifestyle with
        | Singleton =>
          simp only [hbl]
          cases hs : look st.singletons d with
          | some o => simp only [hs]; exact hG
          | none =>
            simp only [hs]
            cases hcr : create_instance fuel st b with
            | ok v =>
              obtain ⟨o, st₂⟩ := v
              simp only [hcr, resState]
              have hG₂ := ihc st b hG
              rw [hcr] at hG₂
              have hdC : d ∉ C := by
                intro hdC
                obtain ⟨b', hb', hdis⟩ := HP d hdC
                rw [hG.1] at hr
                have hbb : b = b' := Option.some.inj (hr.symm.trans hb')
                rw [← hbb] at hdis
                cases hdis with
                | inl hdis => rw [hbl] at hdis
                              exact LifeStyle.noConfusion hdis.1
                | inr hdis =>
                  have hko := ihcf st b hG hdis
                  rw [hcr] at hko
                  simp [isOkB] at hko
              refine ⟨hG₂.1, hG₂.2.1, fun y hy b' hb' => ?_⟩
              have hfr := hG₂.2.2 y hy b' hb'
              cases hbl' : b'.lifestyle with
              | Singleton =>
                simp only [freeAt, hbl'] at hfr ⊢
                have hyd : y ≠ d := fun hyd => hdC (hyd ▸ hy)
                rw [look_cons_ne _ _ hyd]
                exact hfr
              | Scoped =>
                simp only [freeAt, hbl'] at hfr ⊢
                exact hfr
              | PerRequest => simp only [freeAt, hbl']
            | error es =>
              simp only [hcr]
              have hG₂ := ihc st b hG
              rw [hcr] at hG₂
              exact hG₂
        | Scoped =>
          simp only [hbl]
          cases hact : st.scope_active with
          | false => simp only [if_true]; exact hG
          | true =>
            simp only [hact, Bool.true_eq_false, if_false]
            cases hs : look st.scoped_instances d with
            | some o => simp only [hs]; exact hG
            | none =>
              simp only [hs]
              cases hcr : create_instance fuel st b with
              | ok v =>
                obtain ⟨o, st₂⟩ := v
                simp only [hcr, resState]
                have hG₂ := ihc st b hG
                rw [hcr] at hG₂
                have hdC : d ∉ C := by
                  intro hdC
                  obtain ⟨b', hb', hdis⟩ := HP d hdC
                  rw [hG.1] at hr
                  have hbb : b = b' := Option.some.inj (hr.symm.trans hb')
                  rw [← hbb] at hdis
                  cases hdis with
                  | inl hdis =>
                    have hfa : st.scope_active = false := hG.2.1.trans hdis.2
                    rw [hact] at hfa
                    exact Bool.noConfusion hfa
                  | inr hdis =>
                    have hko := ihcf st b hG hdis
                    rw [hcr] at hko
                    simp [isOkB] at hko
                refine ⟨hG₂.1, hG₂.2.1, fun y hy b' hb' => ?_⟩
                have hfr := hG₂.2.2 y hy b' hb'
                cases hbl' : b'.lifestyle with
                | Singleton =>
                  simp only [freeAt, hbl'] at hfr ⊢
                  exact hfr
                | Scoped =>
                  simp only [freeAt, hbl'] at hfr ⊢
                  cases hfr with
                  | inl hfr => exact Or.inl hfr
                  | inr hfr =>
                    have hyd : y ≠ d := fun hyd => hdC (hyd ▸ hy)
                    refine Or.inr ?_
                    rw [look_cons_ne _ _ hyd]
                    exact hfr
                | PerRequest => simp only [freeAt, hbl']
              | error es =>
                simp only [hcr]
                have hG₂ := ihc st b hG
                rw [hcr] at hG₂
                exact hG₂
        | PerRequest =>
          simp only [hbl]
          exact ihc st b hG
    · intro st d hdC hG
      obtain ⟨b, hbR, hdis⟩ := HP d hdC
      rw [get_instance]
      have hr : look st.registrations d = some b := by rw [hG.1]; exact hbR
      simp only [hr]
      cases hdis with
      | inl hdis =>
        simp only [hdis.1]
        have hphi : st.scope_active = false := by rw [hG.2.1]; exact hdis.2
        simp only [hphi, if_true]
        rfl
      | inr hbp =>
        cases hbl : b.lifestyle with
        | Singleton =>
          simp only [hbl]
          have hmiss : look st.singletons d = none := by
            have := hG.2.2 d hdC b hbR
            unfold freeAt at this
            rw [hbl] at this
            exact this
          simp only [hmiss]
          cases hcr : create_instance fuel st b with
          | ok v =>
            have := ihcf st b hG hbp
            rw [hcr] at this
            simp [isOkB] at this
          | error es => simp only [hcr]; rfl
        | Scoped =>
          simp only [hbl]
          cases hact : st.scope_active with
          | false => simp only [if_true]; rfl
          | true =>
            simp only [hact, Bool.true_eq_false, if_false]
            have hmiss : look st.scoped_instances d = none := by
              have := hG.2.2 d hdC b hbR
              unfold freeAt at this
              rw [hbl] at this
              cases this with
              | inl hin => rw [hin] at hact; exact Bool.noConfusion hact
              | inr hin => exact hin
            simp only [hmiss]
            cases hcr : create_instance fuel st b with
            | ok v =>
              have := ihcf st b hG hbp
              rw [hcr] at this
              simp [isOkB] at this
            | error es => simp only [hcr]; rfl
        | PerRequest =>
          simp only [hbl]
          exact ihcf st b hG hbp

theorem look_absent_earlier {l l' : List (Nat × Nat)}
    (hpres : ∀ c o, look l c = some o → look l' c = some o) {y : Nat}
    (h : look l' y = none) : look l y = none := by
  cases hl : look l y with
  | none => rfl
  | some o =>
    have := hpres y o hl
    rw [h] at this
    exact Option.noConfusion this

theorem extPackAt (fuel : Nat) : ExtPackAt fuel := by
  induction fuel with
  | zero =>
    refine ⟨fun st i e st' h he => ?_, fun st b e st' h he => ?_,
      fun st impl eps ps acc e st' h he => ?_⟩
    · rw [get_instance] at h
      exact absurd (Prod.mk.injEq .. ▸ (Except.error.injEq _ _ ▸ h)).1.symm he
    · rw [create_instance] at h
      exact absurd (Prod.mk.injEq .. ▸ (Except.error.injEq _ _ ▸ h)).1.symm he
    · rw [build_kwargs] at h
      exact absurd (Prod.mk.injEq .. ▸ (Except.error.injEq _ _ ▸ h)).1.symm he
  | succ fuel ih =>
    obtain ⟨ihg, ihc, ihb⟩ := ih
    have hbk : ∀ ps st impl eps acc e st',
        build_kwargs (fuel + 1) st impl eps ps acc = .error (e, st') →
        e ≠ .outOfFuel →
        ∃ C, (∀ y, y ∈ C → memberPoison st.registrations st.scope_active C y) ∧
          (∀ y, y ∈ C → ∀ b', look st.registrations y = some b' → freeAt st y b') ∧
          ∃ p, p ∈ ps ∧ poisonP st.registrations C eps p := by
      intro ps st impl eps acc e st' h he
      cases ps with
      | nil => rw [build_kwargs] at h; exact Except.noConfusion h
      | cons q rest =>
        rw [build_kwargs] at h
        cases hsk : skipParam q with
        | true =>
          simp only [hsk, if_true] at h
          obtain ⟨C, hmem, hfree, p, hp, hpois⟩ :=
            ihb st impl eps rest acc e st' h he
          exact ⟨C, hmem, hfree, p, List.mem_cons_of_mem q hp, hpois⟩
        | false =>
          simp only [hsk, Bool.false_eq_true, if_false] at h
          cases hel : look eps q.name with
          | some v =>
            simp only [hel] at h
            obtain ⟨C, hmem, hfree, p, hp, hpois⟩ :=
              ihb st impl eps rest _ e st' h he
            exact ⟨C, hmem, hfree, p, List.mem_cons_of_mem q hp, hpois⟩
          | none =>
            simp only [hel] at h
            cases ha : q.ann with
            | none =>
              simp only [ha] at h
              refine ⟨[], fun y hy => absurd hy (List.not_mem_nil y),
                fun y hy => absurd hy (List.not_mem_nil y),
                q, List.mem_cons_self q rest, hsk, hel, ?_⟩
              rw [ha]
              trivial
            | some a =>
              simp only [ha] at h
              cases hrk : hasKey st.registrations a with
              | false =>
                simp only [hrk, Bool.false_eq_true, if_false] at h
                refine ⟨[], fun y hy => absurd hy (List.not_mem_nil y),
                  fun y hy => absurd hy (List.not_mem_nil y),
                  q, List.mem_cons_self q rest, hsk, hel, ?_⟩
                rw [ha]
                exact Or.inl hrk
              | true =>
                simp only [hrk, if_true] at h
                cases hg : get_instance fuel st a with
                | ok v =>
                  obtain ⟨o, st₂⟩ := v
                  simp only [hg] at h
                  obtain ⟨C, hmem, hfree, p, hp, hpois⟩ :=
                    ihb st₂ impl eps rest _ e st' h he
                  have hev := get_instance_evolves fuel st a
                  rw [hg] at hev
                  simp only [resState] at hev
                  obtain ⟨hreg, hflag, hpS, hpSc, _⟩ := hev
                  rw [hreg, hflag] at hmem
                  rw [hreg] at hpois
                  refine ⟨C, hmem, fun y hy b' hb' => ?_,
                    p, List.mem_cons_of_mem q hp, hpois⟩
                  have hfr := hfree y hy b' (by rw [hreg]; exact hb')
                  cases hbl' : b'.lifestyle with
                  | Singleton =>
                    simp only [freeAt, hbl'] at hfr ⊢
                    exact look_absent_earlier hpS hfr
                  | Scoped =>
                    simp only [freeAt, hbl'] at hfr ⊢
                    cases hfr with
                    | inl hfr => exact Or.inl (hflag ▸ hfr)
                    | inr hfr => exact Or.inr (look_absent_earlier hpSc hfr)
                  | PerRequest => simp only [freeAt, hbl']
                | error es =>
                  obtain ⟨e₂, stE⟩ := es
                  simp only [hg] at h
                  obtain ⟨he₂, hstE⟩ := Prod.mk.injEq .. ▸
                    (Except.error.injEq _ _ ▸ h)
                  have hgi := ihg st a e₂ stE hg (by rw [he₂]; exact he)
                  cases hgi with
                  | inl hgi =>
                    rw [hasKey, hgi] at hrk
                    exact Bool.noConfusion hrk
                  | inr hgi =>
                    obtain ⟨C, haC, hmem, hfree⟩ := hgi
                    refine ⟨C, hmem, hfree, q, List.mem_cons_self q rest,
                      hsk, hel, ?_⟩
                    rw [ha]
                    exact Or.inr haC
    have hci : ∀ st b e st', create_instance (fuel + 1) st b = .error (e, st') →
        e ≠ .outOfFuel →
        ∃ C, (∀ y, y ∈ C → memberPoison st.registrations st.scope_active C y) ∧
          (∀ y, y ∈ C → ∀ b', look st.registrations y = some b' → freeAt st y b') ∧
          b.factory = none ∧
          (b.implementation = none ∨ ∃ impl, b.implementation = some impl ∧
            ∃ p, p ∈ impl.params ∧ poisonP st.registrations C b.params p) := by
      intro st b e st' h he
      rw [create_instance] at h
      cases hf : b.factory with
      | some f => simp only [hf] at h; exact Except.noConfusion h
      | none =>
        simp only [hf] at h
        cases hi : b.implementation with
        | none =>
          exact ⟨[], fun y hy => absurd hy (List.not_mem_nil y),
            fun y hy => absurd hy (List.not_mem_nil y), rfl, Or.inl rfl⟩
        | some impl =>
          simp only [hi] at h
          cases hb2 : build_kwargs fuel st impl b.params impl.params [] with
          | ok v =>
            obtain ⟨kwargs, st₂⟩ := v
            simp only [hb2] at h
            exact Except.noConfusion h
          | error es =>
            obtain ⟨e₂, stE⟩ := es
            simp only [hb2] at h
            obtain ⟨he₂, hstE⟩ := Prod.mk.injEq .. ▸
              (Except.error.injEq _ _ ▸ h)
            obtain ⟨C, hmem, hfree, p, hp, hpois⟩ :=
              ihb st impl b.params impl.params [] e₂ stE hb2
                (by rw [he₂]; exact he)
            exact ⟨C, hmem, hfree, rfl, Or.inr ⟨impl, rfl, p, hp, hpois⟩⟩
    refine ⟨?_, hci, fun st impl eps ps acc => hbk ps st impl eps acc⟩
    intro st i e st' h he
    rw [get_instance] at h
    cases hr : look st.registrations i with
    | none => exact Or.inl rfl
    | some b =>
      simp only [hr] at h
      refine Or.inr ?_
      cases hbl : b.lifestyle with
      | Singleton =>
        simp only [hbl] at h
        cases hs : look st.singletons i with
        | some o => simp only [hs] at h; exact Except.noConfusion h
        | none =>
          simp only [hs] at h
          cases hcr : create_instance fuel st b with
          | ok v =>
            obtain ⟨o, st₂⟩ := v
            simp only [hcr] at h
            exact Except.noConfusion h
          | error es =>
            obtain ⟨e₂, stE⟩ := es
            simp only [hcr] at h
            obtain ⟨he₂, hstE⟩ := Prod.mk.injEq .. ▸
              (Except.error.injEq _ _ ▸ h)
            obtain ⟨C₀, hmem₀, hfree₀, hfn, hbp⟩ :=
              ihc st b e₂ stE hcr (by rw [he₂]; exact he)
            have hsub : ∀ a, a ∈ C₀ → a ∈ i :: C₀ :=
              fun a ha => List.mem_cons_of_mem i ha
            refine ⟨i :: C₀, List.mem_cons_self i C₀, ?_, ?_⟩
            · intro y hy
              cases List.mem_cons.mp hy with
              | inl hyi =>
                subst hyi
                refine ⟨b, hr, Or.inr ⟨hfn, ?_⟩⟩
                cases hbp with
                | inl hbp => exact Or.inl hbp
                | inr hbp =>
                  obtain ⟨impl, himpl, p, hp, hpois⟩ := hbp
                  exact Or.inr ⟨impl, himpl, p, hp, poisonP_mono hsub hpois⟩
              | inr hyC => exact memberPoison_mono hsub (hmem₀ y hyC)
            · intro y hy b' hb'
              cases List.mem_cons.mp hy with
              | inl hyi =>
                subst hyi
                have hbb : b' = b := Option.some.inj (hb'.symm.trans hr)
                subst hbb
                simp only [freeAt, hbl]
                exact hs
              | inr hyC => exact hfree₀ y hyC b' hb'
      | Scoped =>
        simp only [hbl] at h
        cases hact : st.scope_active with
        | false =>
          refine ⟨[i], List.mem_cons_self i [], ?_, ?_⟩
          · intro y hy
            cases List.mem_cons.mp hy with
            | inl hyi => subst hyi; exact ⟨b, hr, Or.inl ⟨hbl, rfl⟩⟩
            | inr hyC => exact absurd hyC (List.not_mem_nil y)
          · intro y hy b' hb'
            cases List.mem_cons.mp hy with
            | inl hyi =>
              subst hyi
              have hbb : b' = b := Option.some.inj (hb'.symm.trans hr)
              subst hbb
              simp only [freeAt, hbl]
              exact Or.inl hact
            | inr hyC => exact absurd hyC (List.not_mem_nil y)
        | true =>
          simp only [hact, Bool.true_eq_false, if_false] at h
          cases hs : look st.scoped_instances i with
          | some o => simp only [hs] at h; exact Except.noConfusion h
          | none =>
            simp only [hs] at h
            cases hcr : create_instance fuel st b with
            | ok v =>
              obtain ⟨o, st₂⟩ := v
              simp only [hcr] at h
              exact Except.noConfusion h
            | error es =>
              obtain ⟨e₂, stE⟩ := es
              simp only [hcr] at h
              obtain ⟨he₂, hstE⟩ := Prod.mk.injEq .. ▸
                (Except.error.injEq _ _ ▸ h)
              obtain ⟨C₀, hmem₀, hfree₀, hfn, hbp⟩ :=
                ihc st b e₂ stE hcr (by rw [he₂]; exact he)
              rw [hact] at hmem₀
              have hsub : ∀ a, a ∈ C₀ → a ∈ i :: C₀ :=
                fun a ha => List.mem_cons_of_mem i ha
              refine ⟨i :: C₀, List.mem_cons_self i C₀, ?_, ?_⟩
              · intro y hy
                cases List.mem_cons.mp hy with
                | inl hyi =>
                  subst hyi
                  refine ⟨b, hr, Or.inr ⟨hfn, ?_⟩⟩
                  cases hbp with
                  | inl hbp => exact Or.inl hbp
                  | inr hbp =>
                    obtain ⟨impl, himpl, p, hp, hpois⟩ := hbp
                    exact Or.inr ⟨impl, himpl, p, hp, poisonP_mono hsub hpois⟩
                | inr hyC => exact memberPoison_mono hsub (hmem₀ y hyC)
              · intro y hy b' hb'
                cases List.mem_cons.mp hy with
                | inl hyi =>
                  subst hyi
                  have hbb : b' = b := Option.some.inj (hb'.symm.trans hr)
                  subst hbb
                  simp only [freeAt, hbl]
                  exact Or.inr hs
                | inr hyC => exact hfree₀ y hyC b' hb'
      | PerRequest =>
        simp only [hbl] at h
        obtain ⟨C₀, hmem₀, hfree₀, hfn, hbp⟩ := ihc st b e st' h he
        have hsub : ∀ a, a ∈ C₀ → a ∈ i :: C₀ :=
          fun a ha => List.mem_cons_of_mem i ha
        refine ⟨i :: C₀, List.mem_cons_self i C₀, ?_, ?_⟩
        · intro y hy
          cases List.mem_cons.mp hy with
          | inl hyi =>
            subst hyi
            refine ⟨b, hr, Or.inr ⟨hfn, ?_⟩⟩
            cases hbp with
            | inl hbp => exact Or.inl hbp
            | inr hbp =>
              obtain ⟨impl, himpl, p, hp, hpois⟩ := hbp
              exact Or.inr ⟨impl, himpl, p, hp, poisonP_mono hsub hpois⟩
          | inr hyC => exact memberPoison_mono hsub (hmem₀ y hyC)
        · intro y hy b' hb'
          cases List.mem_cons.mp hy with
          | inl hyi =>
            subst hyi
            have hbb : b' = b := Option.some.inj (hb'.symm.trans hr)
            subst hbb
            simp only [freeAt, hbl]
          | inr hyC => exact hfree₀ y hyC b' hb' 

/-- C9: when a resolution fails with any of the spec's typed error kinds
(`outOfFuel` is the stand-in for the unbounded-recursion defect, which the
spec classifies separately), the failure is synchronous — the error value
carries the state handed back to the immediate caller — and neither the
singleton store nor the scoped store holds a new entry for the failed
contract: its entries are exactly what they were before the call. -/
theorem failed_resolution_leaves_no_new_entry {fuel : Nat} {st st' : Injector}
    {i : Nat} {e : DIError}
    (h : get_instance fuel st i = .error (e, st')) (he : e ≠ .outOfFuel) :
    look st'.singletons i = look st.singletons i ∧
    look st'.scoped_instances i = look st.scoped_instances i := by
  have hev := get_instance_evolves fuel st i
  rw [h] at hev
  simp only [resState] at hev
  obtain ⟨hreg, hflag, hpS, hpSc, _⟩ := hev
  have hext := (extPackAt fuel).1 st i e st' h he
  cases hext with
  | inl hun =>
    cases fuel with
    | zero =>
      rw [get_instance] at h
      exact absurd (Prod.mk.injEq .. ▸ (Except.error.injEq _ _ ▸ h)).1.symm he
    | succ fuel =>
      rw [get_instance, hun] at h
      obtain ⟨h1, h2⟩ := Prod.mk.injEq .. ▸ (Except.error.injEq _ _ ▸ h)
      rw [← h2]
      exact ⟨rfl, rfl⟩
  | inr hext =>
    obtain ⟨C, hiC, hmem, hfree⟩ := hext
    have hpack := poisonPackAt st.registrations st.scope_active C hmem fuel
    have hGood : GoodFor st.registrations st.scope_active C st := ⟨rfl, rfl, hfree⟩
    have hGood' := hpack.1 st i hGood
    rw [h] at hGood'
    simp only [resState] at hGood'
    obtain ⟨b, hbR, _⟩ := hmem i hiC
    have hsd := storeDisciplineAt fuel
    have hfree_i := hfree i hiC b hbR
    have hfree_i' := hGood'.2.2 i hiC b hbR
    cases hbl : b.lifestyle with
    | Singleton =>
      constructor
      · simp only [freeAt, hbl] at hfree_i hfree_i'
        rw [hfree_i, hfree_i']
      · cases hsc : look st.scoped_instances i with
        | some o => rw [hpSc i o hsc]
        | none =>
          have hls : lifestyleOf st i ≠ some .Scoped := by
            unfold lifestyleOf
            rw [hbR]
            simp [hbl]
          have hd := hsd.2.2.2.1 st i i (Or.inl hls) hsc
          rw [h] at hd
          simp only [resState] at hd
          rw [hd]
    | Scoped =>
      constructor
      · cases hsg : look st.singletons i with
        | some o => rw [hpS i o hsg]
        | none =>
          have hls : lifestyleOf st i ≠ some .Singleton := by
            unfold lifestyleOf
            rw [hbR]
            simp [hbl]
          have hd := hsd.1 st i i hls hsg
          rw [h] at hd
          simp only [resState] at hd
          rw [hd]
      · cases hact : st.scope_active with
        | false =>
          cases hsc : look st.scoped_instances i with
          | some o => rw [hpSc i o hsc]
          | none =>
            have hd := hsd.2.2.2.1 st i i (Or.inr hact) hsc
            rw [h] at hd
            simp only [resState] at hd
            rw [hd]
        | true =>
          simp only [freeAt, hbl] at hfree_i hfree_i'
          have habs : look st.scoped_instances i = none := by
            cases hfree_i with
            | inl hfa => rw [hfa] at hact; exact Bool.noConfusion hact
            | inr habs => exact habs
          have habs' : look st'.scoped_instances i = none := by
            cases hfree_i' with
            | inl hfa' =>
              rw [hflag] at hfa'
              rw [hact] at hfa'
              exact Bool.noConfusion hfa'
            | inr habs' => exact habs'
          rw [habs, habs']
    | PerRequest =>
      constructor
      · cases hsg : look st.singletons i with
        | some o => rw [hpS i o hsg]
        | none =>
          have hls : lifestyleOf st i ≠ some .Singleton := by
            unfold lifestyleOf
            rw [hbR]
            simp [hbl]
          have hd := hsd.1 st i i hls hsg
          rw [h] at hd
          simp only [resState] at hd
          rw [hd]
      · cases hsc : look st.scoped_instances i with
        | some o => rw [hpSc i o hsc]
        | none =>
          have hls : lifestyleOf st i ≠ some .Scoped := by
            unfold lifestyleOf
            rw [hbR]
            simp [hbl]
          have hd := hsd.2.2.2.1 st i i (Or.inl hls) hsc
          rw [h] at hd
          simp only [resState] at hd
          rw [hd]

theorem failed_resolution_leaves_no_new_entry_witness :
    get_instance 10 c9Injector 7 =
      .error (.unresolvableDependency "bad" "NeedsDepAndBad", c9After) ∧
    look c9After.singletons 1 = some 0 ∧
    look c9After.singletons 7 = look c9Injector.singletons 7 ∧
    look c9After.scoped_instances 7 = look c9Injector.scoped_instances 7 := by
  refine ⟨rfl, rfl, ?_⟩
  exact @failed_resolution_leaves_no_new_entry 10 c9Injector c9After 7
    (.unresolvableDependency "bad" "NeedsDepAndBad") rfl (by decide)
